import Mathlib

set_option maxHeartbeats 1000000

/-
Shallow embedding of the follower-side Sequence Paxos replica and its internal
log storage layer (src/omnipaxos/src/sequence_paxos/follower.rs and
src/omnipaxos/src/storage.rs).  Machine integers (u64) are modelled as Nat;
wraparound is made explicit (u64sub) exactly where the source subtracts without
a guard.  The host-provided storage backend is modelled as an in-memory record
honouring the Storage trait contract; every write operation carries a fault
flag (a failing operation leaves the state unchanged and reports an error) and
appends an event to a write trace, so that write ordering and rollback
behaviour can be stated.  Reads are modelled as infallible: no claim concerns
a failing read, and the handlers abort without writes when a read fails.
-/

deriving instance DecidableEq for Except

/-- Width of the u64 type used for log indices in the source. -/
def U64 : Nat := 18446744073709551616

/-- Wrapping u64 subtraction, used where the source subtracts u64 values without
a saturation guard. -/
def u64sub (a b : Nat) : Nat := (a + U64 - b) % U64

/-- Modelled from the spec: Ballot (ballot_leader_election.rs is not under src/):
a totally ordered round identifier (n, pid), compared lexicographically, with
(0, 0) as the bottom element. -/
structure Ballot where
  n : Nat
  pid : Nat
deriving DecidableEq

/-- Lexicographic strict order on ballots. -/
def Ballot.lt (a b : Ballot) : Prop := a.n < b.n ∨ (a.n = b.n ∧ a.pid < b.pid)

instance (a b : Ballot) : Decidable (Ballot.lt a b) := by
  unfold Ballot.lt; exact inferInstance

/-- Lexicographic order on ballots. -/
def Ballot.le (a b : Ballot) : Prop := Ballot.lt a b ∨ a = b

instance (a b : Ballot) : Decidable (Ballot.le a b) := by
  unfold Ballot.le; exact inferInstance

/-- Log entries are modelled as natural numbers; the source is generic over the
user entry type T. -/
abbrev Ent := Nat

/-- Free model of the user-provided Snapshot capability (trait Snapshot in
storage.rs): create and merge build syntactic terms, so no equations between
snapshots are assumed and two snapshots are equal exactly when they were built
from the same entries by the same operations. -/
inductive Snap
  | create (entries : List Ent)
  | merge (s : Snap) (delta : Snap)
deriving DecidableEq

/-- SnapshotType from storage.rs: Complete or Delta snapshot. -/
inductive SnapshotType
  | complete (s : Snap)
  | delta (s : Snap)
deriving DecidableEq

/-- StopSign from storage.rs. -/
structure StopSign where
  config_id : Nat
  nodes : List Nat
  metadata : Option (List Nat)
deriving DecidableEq

/-- StopSignEntry from storage.rs: a stopsign plus its decided flag. -/
structure StopSignEntry where
  stopsign : StopSign
  decided : Bool
deriving DecidableEq

/-- Modelled from the spec: SequenceNumber (util.rs is not under src/): a
per-leader monotonic (session, counter) pair. -/
structure SeqNum where
  session : Nat
  counter : Nat
deriving DecidableEq

/-- Default sequence number (session 0, counter 0). -/
def seq_default : SeqNum := ⟨0, 0⟩

/-- Classification of an incoming sequence number. -/
inductive MsgStatus
  | first
  | expected
  | dropped_preceding
  | outdated
deriving DecidableEq

/-- Modelled from the spec: SequenceNumber::check_msg_status (util.rs is not
under src/), spec section 4.2: First on a new (greater) session or on counter 1
after the tracker's default; Expected on same session and counter+1;
DroppedPreceding on same session with a counter gap; Outdated otherwise. -/
def check_msg_status (cur m : SeqNum) : MsgStatus :=
  if m.session = cur.session then
    if m.counter = cur.counter + 1 then
      if cur = seq_default then MsgStatus.first else MsgStatus.expected
    else if m.counter ≤ cur.counter then MsgStatus.outdated
    else MsgStatus.dropped_preceding
  else if cur.session < m.session then MsgStatus.first
  else MsgStatus.outdated

/-- IndexEntry from util.rs (used only by InternalStorage::read; shape is fixed
by the match arms of read in storage.rs). -/
inductive IndexEntry
  | compacted
  | entry
  | stop_sign (ss : StopSign)
deriving DecidableEq

/-- LogEntry from util.rs, as spliced together by InternalStorage::read. -/
inductive LogEntryT
  | decided (e : Ent)
  | undecided (e : Ent)
  | trimmed (idx : Nat)
  | snapshotted (idx : Nat) (s : Snap)
  | stop_sign (ss : StopSign)
deriving DecidableEq

/-- One end of a RangeBounds value (std::ops::Bound). -/
inductive Bnd
  | incl (i : Nat)
  | excl (i : Nat)
  | unb
deriving DecidableEq

/-- Result of InternalStorage::read: a sequence, None (out of bounds), or the
unimplemented-combination panic. -/
inductive ReadRes
  | found (l : List LogEntryT)
  | nofnd
  | panicked
deriving DecidableEq

/-- The host-provided storage backend, modelled in memory per the Storage trait
contract of storage.rs (log and indices are physical unless noted; decided_idx
and the scalar cells mirror the trait's cells; get_entries returns empty when
the interval is not fully present). -/
structure Stor where
  log : List Ent
  promise : Ballot
  decided_idx : Nat
  accepted_round : Ballot
  compacted_idx : Nat
  stopsign : Option StopSignEntry
  snapshot : Option Snap
deriving DecidableEq

/-- Fault flags for the backend write operations: a set flag makes that
operation fail (returning a storage error and leaving the state unchanged). -/
structure Faults where
  f_append_entries : Bool
  f_append_on_pref : Bool
  f_set_promise : Bool
  f_set_decided_idx : Bool
  f_set_accepted_round : Bool
  f_set_stopsign : Bool
  f_trim : Bool
  f_set_compacted_idx : Bool
  f_set_snapshot : Bool
deriving DecidableEq

/-- The fault-free backend. -/
def noFaults : Faults := ⟨false, false, false, false, false, false, false, false, false⟩

/-- Fault record where only Storage::set_decided_idx fails. -/
def only_set_decided_fault : Faults := ⟨false, false, false, true, false, false, false, false, false⟩

/-- Fault record where only Storage::set_snapshot (the snapshot slot write) fails. -/
def only_set_snapshot_fault : Faults := ⟨false, false, false, false, false, false, false, false, true⟩

/-- Fault record where only Storage::trim fails. -/
def only_trim_fault : Faults := ⟨false, false, false, false, false, false, true, false, false⟩

/-- Write events, recorded in the order the backend commits them. -/
inductive Ev
  | set_promise (b : Ballot)
  | set_decided_idx (i : Nat)
  | set_accepted_round (b : Ballot)
  | set_compacted_idx (i : Nat)
  | set_snapshot (s : Option Snap)
  | set_stopsign (e : StopSignEntry)
  | trim (i : Nat)
  | append (es : List Ent)
  | append_on_pref (i : Nat) (es : List Ent)
deriving DecidableEq

/-- Backend state together with the trace of committed writes. -/
structure SE where
  st : Stor
  tr : List Ev
deriving DecidableEq

namespace BStorage

/-- Storage::append_entries: append to the physical log, return the new length. -/
def append_entries (f : Faults) (es : List Ent) (e : SE) : Except Unit Nat × SE :=
  if f.f_append_entries then (Except.error (), e)
  else
    let log2 := e.st.log ++ es
    (Except.ok log2.length, ⟨{ e.st with log := log2 }, e.tr ++ [Ev.append es]⟩)

/-- Storage::append_on_prefix: truncate the physical log to from_idx entries,
then append; return the new length. -/
def append_on_pref (f : Faults) (from_idx : Nat) (es : List Ent) (e : SE) : Except Unit Nat × SE :=
  if f.f_append_on_pref then (Except.error (), e)
  else
    let log2 := e.st.log.take from_idx ++ es
    (Except.ok log2.length, ⟨{ e.st with log := log2 }, e.tr ++ [Ev.append_on_pref from_idx es]⟩)

/-- Storage::set_promise. -/
def set_promise (f : Faults) (b : Ballot) (e : SE) : Except Unit Unit × SE :=
  if f.f_set_promise then (Except.error (), e)
  else (Except.ok (), ⟨{ e.st with promise := b }, e.tr ++ [Ev.set_promise b]⟩)

/-- Storage::set_decided_idx. -/
def set_decided_idx (f : Faults) (i : Nat) (e : SE) : Except Unit Unit × SE :=
  if f.f_set_decided_idx then (Except.error (), e)
  else (Except.ok (), ⟨{ e.st with decided_idx := i }, e.tr ++ [Ev.set_decided_idx i]⟩)

/-- Storage::set_accepted_round. -/
def set_accepted_round (f : Faults) (b : Ballot) (e : SE) : Except Unit Unit × SE :=
  if f.f_set_accepted_round then (Except.error (), e)
  else (Except.ok (), ⟨{ e.st with accepted_round := b }, e.tr ++ [Ev.set_accepted_round b]⟩)

/-- Storage::set_stopsign. -/
def set_stopsign (f : Faults) (ss : StopSignEntry) (e : SE) : Except Unit Unit × SE :=
  if f.f_set_stopsign then (Except.error (), e)
  else (Except.ok (), ⟨{ e.st with stopsign := some ss }, e.tr ++ [Ev.set_stopsign ss]⟩)

/-- Storage::trim: drop the first i physical entries. -/
def trim (f : Faults) (i : Nat) (e : SE) : Except Unit Unit × SE :=
  if f.f_trim then (Except.error (), e)
  else (Except.ok (), ⟨{ e.st with log := e.st.log.drop i }, e.tr ++ [Ev.trim i]⟩)

/-- Storage::set_compacted_idx. -/
def set_compacted_idx (f : Faults) (i : Nat) (e : SE) : Except Unit Unit × SE :=
  if f.f_set_compacted_idx then (Except.error (), e)
  else (Except.ok (), ⟨{ e.st with compacted_idx := i }, e.tr ++ [Ev.set_compacted_idx i]⟩)

/-- Storage::set_snapshot (the snapshot slot). -/
def set_snapshot (f : Faults) (s : Option Snap) (e : SE) : Except Unit Unit × SE :=
  if f.f_set_snapshot then (Except.error (), e)
  else (Except.ok (), ⟨{ e.st with snapshot := s }, e.tr ++ [Ev.set_snapshot s]⟩)

/-- Storage::get_entries on physical indices: the entries in [from_idx, to_idx);
empty if the interval is not fully present. -/
def get_entries (s : Stor) (from_idx to_idx : Nat) : List Ent :=
  if to_idx ≤ s.log.length then (s.log.drop from_idx).take (to_idx - from_idx) else []

/-- Storage::get_suffix on physical indices. -/
def get_suffix (s : Stor) (from_idx : Nat) : List Ent := s.log.drop from_idx

end BStorage

namespace InternalStorage

/-- InternalStorage::get_log_len: the virtual log length, compacted_idx plus the
physical length. -/
def get_log_len (s : Stor) : Nat := s.compacted_idx + s.log.length

/-- InternalStorage::get_entries: translate the virtual interval to physical
indices with saturating subtraction, then read from the backend. -/
def get_entries (s : Stor) (from_idx to_idx : Nat) : List Ent :=
  BStorage.get_entries s (from_idx - min s.compacted_idx from_idx)
    (to_idx - min s.compacted_idx to_idx)

/-- InternalStorage::get_suffix: saturating translation to a physical index. -/
def get_suffix (s : Stor) (from_idx : Nat) : List Ent :=
  BStorage.get_suffix s (from_idx - min s.compacted_idx from_idx)

/-- InternalStorage::append_entries: append and report the virtual length. -/
def append_entries (f : Faults) (es : List Ent) (e : SE) : Except Unit Nat × SE :=
  let c := e.st.compacted_idx
  match BStorage.append_entries f es e with
  | (Except.ok n, e2) => (Except.ok (n + c), e2)
  | (Except.error u, e2) => (Except.error u, e2)

/-- InternalStorage::append_on_prefix: the physical truncation point is the
unguarded u64 subtraction from_idx - compacted_idx. -/
def append_on_pref (f : Faults) (from_idx : Nat) (es : List Ent) (e : SE) : Except Unit Nat × SE :=
  let c := e.st.compacted_idx
  match BStorage.append_on_pref f (u64sub from_idx c) es e with
  | (Except.ok n, e2) => (Except.ok (n + c), e2)
  | (Except.error u, e2) => (Except.error u, e2)

/-- InternalStorage::create_snapshot: snapshot the virtual prefix [0, compact_idx)
and merge it onto any existing snapshot. -/
def create_snapshot (s : Stor) (compact_idx : Nat) : Snap :=
  let entries := BStorage.get_entries s 0 (u64sub compact_idx s.compacted_idx)
  let delta := Snap.create entries
  match s.snapshot with
  | some sn => Snap.merge sn delta
  | none => delta

/-- InternalStorage::create_diff_snapshot: Complete when compacted_idx ≥ from_idx,
else a Delta over the entries in [from_idx, to_idx). -/
def create_diff_snapshot (s : Stor) (from_idx to_idx : Nat) : SnapshotType :=
  if from_idx ≤ s.compacted_idx then SnapshotType.complete (create_snapshot s to_idx)
  else SnapshotType.delta (Snap.create (get_entries s from_idx to_idx))

/-- InternalStorage::set_snapshot: when idx exceeds the compacted index, write
compacted_idx, the snapshot slot and the trim in that order, rolling back the
already written cells when a later step fails. -/
def set_snapshot (f : Faults) (idx : Nat) (snap : Snap) (e : SE) : Except Unit Unit × SE :=
  let old_compacted_idx := e.st.compacted_idx
  let old_snapshot := e.st.snapshot
  if old_compacted_idx < idx then
    match BStorage.set_compacted_idx f idx e with
    | (Except.error u, e1) => (Except.error u, e1)
    | (Except.ok _, e1) =>
      match BStorage.set_snapshot f (some snap) e1 with
      | (Except.error u, e2) =>
        match BStorage.set_compacted_idx f old_compacted_idx e2 with
        | (Except.error u2, e3) => (Except.error u2, e3)
        | (Except.ok _, e3) => (Except.error u, e3)
      | (Except.ok _, e2) =>
        match BStorage.trim f (idx - old_compacted_idx) e2 with
        | (Except.error u, e3) =>
          match BStorage.set_compacted_idx f old_compacted_idx e3 with
          | (Except.error u2, e4) => (Except.error u2, e4)
          | (Except.ok _, e4) =>
            match BStorage.set_snapshot f old_snapshot e4 with
            | (Except.error u2, e5) => (Except.error u2, e5)
            | (Except.ok _, e5) => (Except.error u, e5)
        | (Except.ok _, e3) => (Except.ok (), e3)
  else (Except.ok (), e)

/-- InternalStorage::merge_snapshot: load the snapshot, or synthesize one with
create_snapshot at the backend's physical log length (the source passes
storage.get_log_len() where create_snapshot expects a virtual index), merge the
delta, and install the result with set_snapshot. -/
def merge_snapshot (f : Faults) (idx : Nat) (delta : Snap) (e : SE) : Except Unit Unit × SE :=
  let log_len := e.st.log.length
  let snapshot :=
    match e.st.snapshot with
    | some snap => snap
    | none => create_snapshot e.st log_len
  set_snapshot f idx (Snap.merge snapshot delta) e

/-- Modelled from the spec: merge_snapshot per section 4.1 loads the snapshot or
synthesizes one over the full log when none exists (create_snapshot at the full
virtual length), merges the delta, and installs it with set_snapshot.  Kept for
comparison with the source's merge_snapshot. -/
def merge_snapshot_spec (f : Faults) (idx : Nat) (delta : Snap) (e : SE) : Except Unit Unit × SE :=
  let snapshot :=
    match e.st.snapshot with
    | some snap => snap
    | none => create_snapshot e.st (get_log_len e.st)
  set_snapshot f idx (Snap.merge snapshot delta) e

/-- InternalStorage::get_entry_type at a virtual index. -/
def get_entry_type (s : Stor) (idx compacted_idx virtual_log_len : Nat) : Option IndexEntry :=
  if idx < compacted_idx then some IndexEntry.compacted
  else if idx < virtual_log_len then some IndexEntry.entry
  else if idx = virtual_log_len then
    match s.stopsign with
    | some ss => if ss.decided then some (IndexEntry.stop_sign ss.stopsign) else none
    | none => none
  else none

/-- InternalStorage::create_compacted_entry. -/
def create_compacted_entry (s : Stor) (compacted_idx : Nat) : LogEntryT :=
  match s.snapshot with
  | some sn => LogEntryT.snapshotted compacted_idx sn
  | none => LogEntryT.trimmed compacted_idx

/-- InternalStorage::create_read_log_entries_with_real_idx: fetch the physical
slice and annotate each entry Decided or Undecided (the source computes the
annotation index as the enumeration position plus compacted_idx). -/
def create_read_log_entries (s : Stor) (from_sfx_idx to_sfx_idx compacted_idx decided_idx : Nat) :
    List LogEntryT :=
  (BStorage.get_entries s from_sfx_idx to_sfx_idx).enum.map
    (fun p => if decided_idx < p.1 + compacted_idx then LogEntryT.undecided p.2
              else LogEntryT.decided p.2)

/-- The inclusive start index of a range (RangeBounds::start_bound in read). -/
def start_idx (lo : Bnd) : Nat :=
  match lo with
  | Bnd.incl i => i
  | Bnd.excl i => i + 1
  | Bnd.unb => 0

/-- The exclusive end index of a range (RangeBounds::end_bound in read); an
unbounded end includes the decided stopsign slot. -/
def end_idx (s : Stor) (hi : Bnd) : Nat :=
  match hi with
  | Bnd.incl i => i + 1
  | Bnd.excl i => i
  | Bnd.unb =>
    match s.stopsign with
    | some ss => if ss.decided then get_log_len s + 1 else get_log_len s
    | none => get_log_len s

/-- InternalStorage::read: splice compacted placeholder, annotated entries and
decided stopsign for the range, or report out of bounds. -/
def read (s : Stor) (lo hi : Bnd) : ReadRes :=
  let virtual_log_len := get_log_len s
  let from_idx := start_idx lo
  let to_idx := end_idx s hi
  let c := s.compacted_idx
  match get_entry_type s (u64sub to_idx 1) c virtual_log_len with
  | some IndexEntry.compacted => ReadRes.found [create_compacted_entry s c]
  | none => ReadRes.nofnd
  | some to_type =>
    match get_entry_type s from_idx c virtual_log_len with
    | none => ReadRes.nofnd
    | some from_type =>
      let d := s.decided_idx
      match from_type, to_type with
      | IndexEntry.entry, IndexEntry.entry =>
        ReadRes.found (create_read_log_entries s (from_idx - c) (to_idx - c) c d)
      | IndexEntry.entry, IndexEntry.stop_sign ss =>
        ReadRes.found (create_read_log_entries s (from_idx - c) (to_idx - c - 1) c d ++
          [LogEntryT.stop_sign ss])
      | IndexEntry.compacted, IndexEntry.entry =>
        ReadRes.found (create_compacted_entry s c :: create_read_log_entries s 0 (to_idx - c) c d)
      | IndexEntry.compacted, IndexEntry.stop_sign ss =>
        ReadRes.found (create_compacted_entry s c :: (create_read_log_entries s 0 (to_idx - c - 1) c d ++
          [LogEntryT.stop_sign ss]))
      | IndexEntry.stop_sign ss, IndexEntry.stop_sign _ =>
        ReadRes.found [LogEntryT.stop_sign ss]
      | _, _ => ReadRes.panicked

end InternalStorage

/-- Role of a replica. -/
inductive Role
  | follower
  | leader
deriving DecidableEq

/-- Phase of a replica. -/
inductive Phase
  | recover
  | prepare
  | accept
deriving DecidableEq

/-- Wire message Prepare. -/
structure PrepareMsg where
  n : Ballot
  n_accepted : Ballot
  accepted_idx : Nat
  decided_idx : Nat
deriving DecidableEq

/-- Wire message Promise. -/
structure PromiseMsg where
  n : Ballot
  n_accepted : Ballot
  decided_snapshot : Option SnapshotType
  suffix : List Ent
  decided_idx : Nat
  accepted_idx : Nat
  stopsign : Option StopSign
deriving DecidableEq

/-- Wire message AcceptSync. -/
structure AcceptSyncMsg where
  n : Ballot
  decided_snapshot : Option SnapshotType
  suffix : List Ent
  sync_idx : Nat
  decided_idx : Nat
  stopsign : Option StopSign
  seq_num : SeqNum
deriving DecidableEq

/-- Wire message AcceptDecide. -/
structure AcceptDecideMsg where
  n : Ballot
  seq_num : SeqNum
  decided_idx : Nat
  entries : List Ent
deriving DecidableEq

/-- Wire message AcceptStopSign. -/
structure AcceptStopSignMsg where
  n : Ballot
  seq_num : SeqNum
  ss : StopSign
deriving DecidableEq

/-- Wire message Decide. -/
structure DecideMsg where
  n : Ballot
  seq_num : SeqNum
  decided_idx : Nat
deriving DecidableEq

/-- Wire message DecideStopSign. -/
structure DecideStopSignMsg where
  n : Ballot
  seq_num : SeqNum
deriving DecidableEq

/-- Wire message Accepted. -/
structure AcceptedMsg where
  n : Ballot
  accepted_idx : Nat
deriving DecidableEq

/-- Outbound Paxos message payloads produced by the follower. -/
inductive PaxosMsg
  | promise (p : PromiseMsg)
  | accepted (a : AcceptedMsg)
  | accepted_stopsign (n : Ballot)
deriving DecidableEq

/-- An addressed Paxos message. -/
structure PaxosMessage where
  src : Nat
  dst : Nat
  msg : PaxosMsg
deriving DecidableEq

/-- The follower replica state (SequencePaxos fields used by follower.rs, plus
the storage backend). -/
structure RState where
  pid : Nat
  leader : Ballot
  role : Role
  phase : Phase
  current_seq_num : SeqNum
  cached_promise : Option PromiseMsg
  latest_accepted_meta : Option (Ballot × Nat)
  pending_proposals : List Ent
  outgoing : List PaxosMessage
  stor : Stor
deriving DecidableEq

/-- Result of running a handler: ok is false when the replica panics (after the
best-effort rollbacks), st is the state at completion or at the panic, and tr is
the trace of committed backend writes. -/
structure HRes where
  ok : Bool
  st : RState
  tr : List Ev
deriving DecidableEq

namespace SequencePaxos

/-- Modelled from the spec: SequencePaxos::get_stopsign (sequence_paxos/mod.rs is
not under src/): the stored stopsign carried in a Promise (section 6.2). -/
def get_stopsign (s : Stor) : Option StopSign := s.stopsign.map (fun e => e.stopsign)

/-- Modelled from the spec: forward_pending_proposals takes pending_proposals and
dispatches them through the external leader-forwarding interface (section 4.3);
dispatch is external, so it is modelled as clearing the list. -/
def forward_pending_proposals (s : RState) : RState := { s with pending_proposals := [] }

/-- Modelled from the spec: reconnected signals the outer SequencePaxos
(sequence_paxos/mod.rs is not under src/) to request a re-sync from the peer; it
changes none of the follower state modelled here (section 4.3). -/
def reconnected (_peer : Nat) (s : RState) : RState := s

/-- Modelled from the spec: SequencePaxos::accept_stopsign (sequence_paxos/mod.rs
is not under src/): install the stopsign undecided in storage (section 4.3
step 8). -/
def accept_stopsign (f : Faults) (ss : StopSign) (e : SE) : Except Unit Unit × SE :=
  BStorage.set_stopsign f ⟨ss, false⟩ e

/-- The rollback sequence [AcceptedRound(b), DecidedIdx(d)] as replayed by
InternalStorage::rollback (storage.rs); a failing rollback write aborts at once,
so the later value is not written in that case. -/
def rollback_ar_di (f : Faults) (b : Ballot) (d : Nat) (e : SE) : SE :=
  match BStorage.set_accepted_round f b e with
  | (Except.error _, e2) => e2
  | (Except.ok _, e2) => (BStorage.set_decided_idx f d e2).2

/-- The (decided_snapshot, suffix) pair computed by handle_prepare from the
local state (follower.rs lines 37-80); u is T::Snapshot::use_snapshots(). -/
def prepare_pair (u : Bool) (p : PrepareMsg) (st : Stor) : Option SnapshotType × List Ent :=
  if Ballot.lt p.n_accepted st.accepted_round then
    if p.decided_idx < st.decided_idx ∧ u then
      (some (InternalStorage.create_diff_snapshot st p.decided_idx st.decided_idx),
       InternalStorage.get_suffix st st.decided_idx)
    else
      (none, InternalStorage.get_suffix st p.decided_idx)
  else
    if st.accepted_round = p.n_accepted ∧ p.accepted_idx < InternalStorage.get_log_len st then
      if u ∧ p.accepted_idx < st.compacted_idx then
        (some (InternalStorage.create_diff_snapshot st p.decided_idx st.decided_idx),
         InternalStorage.get_suffix st st.decided_idx)
      else
        (none, InternalStorage.get_suffix st p.accepted_idx)
    else (none, [])

/-- The Promise message constructed by handle_prepare. -/
def prepare_promise (u : Bool) (p : PrepareMsg) (st : Stor) : PromiseMsg :=
  ⟨p.n, st.accepted_round, (prepare_pair u p st).1, (prepare_pair u p st).2,
   st.decided_idx, InternalStorage.get_log_len st, get_stopsign st⟩

/-- handle_prepare from follower.rs. -/
def handle_prepare (f : Faults) (u : Bool) (p : PrepareMsg) (sender : Nat) (s : RState) : HRes :=
  let old_promise := s.stor.promise
  if Ballot.lt old_promise p.n ∨ (old_promise = p.n ∧ s.phase = Phase.recover) then
    let s1 : RState :=
      { s with
        leader := p.n
        role := Role.follower
        phase := Phase.prepare
        current_seq_num := seq_default }
    match BStorage.set_promise f p.n ⟨s1.stor, []⟩ with
    | (Except.error _, e1) => ⟨false, { s1 with stor := e1.st }, e1.tr⟩
    | (Except.ok _, e1) =>
      let pm : PromiseMsg := prepare_promise u p s1.stor
      ⟨true,
       { s1 with
         stor := e1.st
         cached_promise := some pm
         outgoing := s1.outgoing ++ [⟨s1.pid, sender, PaxosMsg.promise pm⟩] }, e1.tr⟩
  else ⟨true, s, []⟩

/-- handle_acceptsync from follower.rs. -/
def handle_acceptsync (f : Faults) (m : AcceptSyncMsg) (sender : Nat) (s : RState) : HRes :=
  if s.stor.promise = m.n ∧ s.role = Role.follower ∧ s.phase = Phase.prepare then
    let old_decided_idx := s.stor.decided_idx
    let old_accepted_round := s.stor.accepted_round
    match BStorage.set_accepted_round f m.n ⟨s.stor, []⟩ with
    | (Except.error _, e1) => ⟨false, { s with stor := e1.st }, e1.tr⟩
    | (Except.ok _, e1) =>
      match BStorage.set_decided_idx f m.decided_idx e1 with
      | (Except.error _, e2) =>
        let e3 := (BStorage.set_accepted_round f old_accepted_round e2).2
        ⟨false, { s with stor := e3.st }, e3.tr⟩
      | (Except.ok _, e2) =>
        let cont : SE → Nat → HRes := fun e4 aidx =>
          let s3 : RState :=
            { s with
              stor := e4.st
              role := Role.follower
              phase := Phase.accept
              current_seq_num := m.seq_num
              latest_accepted_meta := some (m.n, s.outgoing.length)
              outgoing := s.outgoing ++ [⟨s.pid, sender, PaxosMsg.accepted ⟨m.n, aidx⟩⟩] }
          match m.stopsign with
          | some ss =>
            let do_accept : Bool :=
              match e4.st.stopsign with
              | some entry => !entry.decided
              | none => true
            if do_accept then
              match accept_stopsign f ss ⟨s3.stor, e4.tr⟩ with
              | (Except.error _, e5) => ⟨false, { s3 with stor := e5.st }, e5.tr⟩
              | (Except.ok _, e5) =>
                ⟨true,
                 { s3 with
                   stor := e5.st
                   outgoing := s3.outgoing ++
                     [⟨s3.pid, sender, PaxosMsg.accepted_stopsign m.n⟩] }, e5.tr⟩
            else
              ⟨true,
               { s3 with outgoing := s3.outgoing ++
                   [⟨s3.pid, sender, PaxosMsg.accepted_stopsign m.n⟩] }, e4.tr⟩
          | none => ⟨true, forward_pending_proposals s3, e4.tr⟩
        match m.decided_snapshot with
        | some snap_ty =>
          let r1 :=
            match snap_ty with
            | SnapshotType.complete c => InternalStorage.set_snapshot f m.decided_idx c e2
            | SnapshotType.delta d => InternalStorage.merge_snapshot f m.decided_idx d e2
          match r1 with
          | (Except.error _, e3) =>
            let e4 := rollback_ar_di f old_accepted_round old_decided_idx e3
            ⟨false, { s with stor := e4.st }, e4.tr⟩
          | (Except.ok _, e3) =>
            match InternalStorage.append_entries f m.suffix e3 with
            | (Except.error _, e4) =>
              let e5 := (BStorage.set_accepted_round f old_accepted_round e4).2
              ⟨false, { s with stor := e5.st }, e5.tr⟩
            | (Except.ok aidx, e4) => cont e4 aidx
        | none =>
          match InternalStorage.append_on_pref f m.sync_idx m.suffix e2 with
          | (Except.error _, e3) =>
            let e4 := rollback_ar_di f old_accepted_round old_decided_idx e3
            ⟨false, { s with stor := e4.st }, e4.tr⟩
          | (Except.ok aidx, e3) => cont e3 aidx
  else ⟨true, s, []⟩

/-- Outcome of accept_entries: success, a storage error (the caller rolls back),
or the logic-bug panic when the cached slot is not an Accepted message. -/
inductive AEOut
  | aok
  | aerr
  | abug
deriving DecidableEq

/-- Result of accept_entries. -/
structure AERes where
  out : AEOut
  st : RState
  tr : List Ev
deriving DecidableEq

/-- accept_entries from follower.rs: append the entries, then either advance the
accepted_idx of the queued Accepted referenced by latest_accepted_meta (when its
round equals n) or push a fresh Accepted and repoint latest_accepted_meta. -/
def accept_entries (f : Faults) (n : Ballot) (es : List Ent) (s : RState) (tr0 : List Ev) : AERes :=
  match InternalStorage.append_entries f es ⟨s.stor, tr0⟩ with
  | (Except.error _, e1) => ⟨AEOut.aerr, { s with stor := e1.st }, e1.tr⟩
  | (Except.ok accepted_idx, e1) =>
    let s1 : RState := { s with stor := e1.st }
    match s1.latest_accepted_meta with
    | some (round, outgoing_idx) =>
      if round = n then
        match s1.outgoing[outgoing_idx]? with
        | none => ⟨AEOut.abug, s1, e1.tr⟩
        | some pmsg =>
          match pmsg.msg with
          | PaxosMsg.accepted a =>
            let upd : PaxosMessage := ⟨pmsg.src, pmsg.dst, PaxosMsg.accepted ⟨a.n, accepted_idx⟩⟩
            ⟨AEOut.aok, { s1 with outgoing := s1.outgoing.set outgoing_idx upd }, e1.tr⟩
          | _ => ⟨AEOut.abug, s1, e1.tr⟩
      else
        ⟨AEOut.aok,
         { s1 with
           latest_accepted_meta := some (n, s1.outgoing.length)
           outgoing := s1.outgoing ++
             [⟨s1.pid, s1.leader.pid, PaxosMsg.accepted ⟨n, accepted_idx⟩⟩] }, e1.tr⟩
    | none =>
      ⟨AEOut.aok,
       { s1 with
         latest_accepted_meta := some (n, s1.outgoing.length)
         outgoing := s1.outgoing ++
           [⟨s1.pid, s1.leader.pid, PaxosMsg.accepted ⟨n, accepted_idx⟩⟩] }, e1.tr⟩

/-- The tail of handle_acceptdecide after the sequence-number classification:
the optional decide write, then accept_entries with the rollback-and-panic
error handling of follower.rs. -/
def acceptdecide_core (f : Faults) (m : AcceptDecideMsg) (old_ar : Option Ballot)
    (old_decided_idx : Nat) (s : RState) (tr0 : List Ev) : HRes :=
  let step2 : RState → List Ev → HRes := fun s2 tr2 =>
    match accept_entries f m.n m.entries s2 tr2 with
    | ⟨AEOut.aok, s3, tr3⟩ => ⟨true, s3, tr3⟩
    | ⟨AEOut.abug, s3, tr3⟩ => ⟨false, s3, tr3⟩
    | ⟨AEOut.aerr, s3, tr3⟩ =>
      match old_ar with
      | some r =>
        match BStorage.set_accepted_round f r ⟨s3.stor, tr3⟩ with
        | (Except.error _, e2) => ⟨false, { s3 with stor := e2.st }, e2.tr⟩
        | (Except.ok _, e2) =>
          let e3 := (BStorage.set_decided_idx f old_decided_idx e2).2
          ⟨false, { s3 with stor := e3.st }, e3.tr⟩
      | none =>
        let e3 := (BStorage.set_decided_idx f old_decided_idx ⟨s3.stor, tr3⟩).2
        ⟨false, { s3 with stor := e3.st }, e3.tr⟩
  if old_decided_idx < m.decided_idx then
    match BStorage.set_decided_idx f m.decided_idx ⟨s.stor, tr0⟩ with
    | (Except.error _, e1) =>
      match old_ar with
      | some r =>
        let e2 := (BStorage.set_accepted_round f r e1).2
        ⟨false, { s with stor := e2.st }, e2.tr⟩
      | none => ⟨false, { s with stor := e1.st }, e1.tr⟩
    | (Except.ok _, e1) => step2 { s with stor := e1.st } e1.tr
  else step2 s tr0

/-- handle_acceptdecide from follower.rs. -/
def handle_acceptdecide (f : Faults) (m : AcceptDecideMsg) (s : RState) : HRes :=
  if s.stor.promise = m.n ∧ s.role = Role.follower ∧ s.phase = Phase.accept then
    let old_decided_idx := s.stor.decided_idx
    match check_msg_status s.current_seq_num m.seq_num with
    | MsgStatus.first =>
      let old_accepted_round := s.stor.accepted_round
      match BStorage.set_accepted_round f m.n ⟨s.stor, []⟩ with
      | (Except.error _, e1) => ⟨false, { s with stor := e1.st }, e1.tr⟩
      | (Except.ok _, e1) =>
        let s1 := forward_pending_proposals { s with stor := e1.st }
        acceptdecide_core f m (some old_accepted_round) old_decided_idx
          { s1 with current_seq_num := m.seq_num } e1.tr
    | MsgStatus.expected =>
      acceptdecide_core f m none old_decided_idx { s with current_seq_num := m.seq_num } []
    | MsgStatus.dropped_preceding => ⟨true, reconnected m.n.pid s, []⟩
    | MsgStatus.outdated => ⟨true, s, []⟩
  else ⟨true, s, []⟩

/-- The tail of handle_accept_stopsign: install the stopsign and emit
AcceptedStopSign to the current leader. -/
def accept_ss_core (f : Faults) (m : AcceptStopSignMsg) (s : RState) (tr0 : List Ev) : HRes :=
  match accept_stopsign f m.ss ⟨s.stor, tr0⟩ with
  | (Except.error _, e1) => ⟨false, { s with stor := e1.st }, e1.tr⟩
  | (Except.ok _, e1) =>
    ⟨true,
     { s with
       stor := e1.st
       outgoing := s.outgoing ++ [⟨s.pid, s.leader.pid, PaxosMsg.accepted_stopsign m.n⟩] },
     e1.tr⟩

/-- handle_accept_stopsign from follower.rs. -/
def handle_accept_stopsign (f : Faults) (m : AcceptStopSignMsg) (s : RState) : HRes :=
  if s.stor.promise = m.n ∧ s.role = Role.follower ∧ s.phase = Phase.accept then
    match check_msg_status s.current_seq_num m.seq_num with
    | MsgStatus.first =>
      match BStorage.set_accepted_round f m.n ⟨s.stor, []⟩ with
      | (Except.error _, e1) => ⟨false, { s with stor := e1.st }, e1.tr⟩
      | (Except.ok _, e1) =>
        let s1 := forward_pending_proposals { s with stor := e1.st }
        accept_ss_core f m { s1 with current_seq_num := m.seq_num } e1.tr
    | MsgStatus.expected => accept_ss_core f m { s with current_seq_num := m.seq_num } []
    | MsgStatus.dropped_preceding => ⟨true, reconnected m.n.pid s, []⟩
    | MsgStatus.outdated => ⟨true, s, []⟩
  else ⟨true, s, []⟩

/-- handle_decide from follower.rs (the gate checks only the phase). -/
def handle_decide (f : Faults) (m : DecideMsg) (s : RState) : HRes :=
  if s.stor.promise = m.n ∧ s.phase = Phase.accept then
    match check_msg_status s.current_seq_num m.seq_num with
    | MsgStatus.first => ⟨true, s, []⟩
    | MsgStatus.expected =>
      let s1 : RState := { s with current_seq_num := m.seq_num }
      match BStorage.set_decided_idx f m.decided_idx ⟨s1.stor, []⟩ with
      | (Except.error _, e1) => ⟨false, { s1 with stor := e1.st }, e1.tr⟩
      | (Except.ok _, e1) => ⟨true, { s1 with stor := e1.st }, e1.tr⟩
    | MsgStatus.dropped_preceding => ⟨true, reconnected m.n.pid s, []⟩
    | MsgStatus.outdated => ⟨true, s, []⟩
  else ⟨true, s, []⟩

/-- handle_decide_stopsign from follower.rs. -/
def handle_decide_stopsign (f : Faults) (m : DecideStopSignMsg) (s : RState) : HRes :=
  if s.stor.promise = m.n ∧ s.phase = Phase.accept then
    match check_msg_status s.current_seq_num m.seq_num with
    | MsgStatus.first => ⟨true, s, []⟩
    | MsgStatus.expected =>
      let s1 : RState := { s with current_seq_num := m.seq_num }
      match s1.stor.stopsign with
      | none => ⟨false, s1, []⟩
      | some ss_entry =>
        let ss2 : StopSignEntry := { ss_entry with decided := true }
        let log_len := InternalStorage.get_log_len s1.stor
        let old_decided_idx := s1.stor.decided_idx
        match BStorage.set_decided_idx f (log_len + 1) ⟨s1.stor, []⟩ with
        | (Except.error _, e1) => ⟨false, { s1 with stor := e1.st }, e1.tr⟩
        | (Except.ok _, e1) =>
          match BStorage.set_stopsign f ss2 e1 with
          | (Except.error _, e2) =>
            let e3 := (BStorage.set_decided_idx f old_decided_idx e2).2
            ⟨false, { s1 with stor := e3.st }, e3.tr⟩
          | (Except.ok _, e2) => ⟨true, { s1 with stor := e2.st }, e2.tr⟩
    | MsgStatus.dropped_preceding => ⟨true, reconnected m.n.pid s, []⟩
    | MsgStatus.outdated => ⟨true, s, []⟩
  else ⟨true, s, []⟩

end SequencePaxos

/-- Modelled from the spec: the bootstrap storage state, all cells at their
bottom values. -/
def init_stor : Stor := ⟨[], ⟨0, 0⟩, 0, ⟨0, 0⟩, 0, none, none⟩

/-- Modelled from the spec: the follower's bootstrap state (sequence_paxos/mod.rs
is not under src/): (Follower, Recover), default sequence number, empty queues. -/
def init_state (pid : Nat) : RState :=
  ⟨pid, ⟨0, 0⟩, Role.follower, Phase.recover, seq_default, none, none, [], [], init_stor⟩

/-- One follower step: a handler running to normal completion on a fault-free
backend, or the host adding a client proposal to pending_proposals. -/
inductive Step (u : Bool) : RState → RState → Prop
  | prepare (p : PrepareMsg) (sender : Nat) (s s' : RState) (tr : List Ev)
      (h : SequencePaxos.handle_prepare noFaults u p sender s = ⟨true, s', tr⟩) : Step u s s'
  | acceptsync (m : AcceptSyncMsg) (sender : Nat) (s s' : RState) (tr : List Ev)
      (h : SequencePaxos.handle_acceptsync noFaults m sender s = ⟨true, s', tr⟩) : Step u s s'
  | acceptdecide (m : AcceptDecideMsg) (s s' : RState) (tr : List Ev)
      (h : SequencePaxos.handle_acceptdecide noFaults m s = ⟨true, s', tr⟩) : Step u s s'
  | accept_ss (m : AcceptStopSignMsg) (s s' : RState) (tr : List Ev)
      (h : SequencePaxos.handle_accept_stopsign noFaults m s = ⟨true, s', tr⟩) : Step u s s'
  | decide (m : DecideMsg) (s s' : RState) (tr : List Ev)
      (h : SequencePaxos.handle_decide noFaults m s = ⟨true, s', tr⟩) : Step u s s'
  | decide_ss (m : DecideStopSignMsg) (s s' : RState) (tr : List Ev)
      (h : SequencePaxos.handle_decide_stopsign noFaults m s = ⟨true, s', tr⟩) : Step u s s'
  | propose (e : Ent) (s : RState) :
      Step u s { s with pending_proposals := s.pending_proposals ++ [e] }

/-- Reachability of a follower state from bootstrap through handler steps. -/
inductive Reachable (u : Bool) : RState → Prop
  | init (pid : Nat) : Reachable u (init_state pid)
  | step (s s' : RState) (hs : Reachable u s) (h : Step u s s') : Reachable u s'

/-- The Accepted message with round n and accepted index a sits at position i of
the outgoing queue l. -/
def accAt (l : List PaxosMessage) (i : Nat) (n : Ballot) (a : Nat) : Prop :=
  ∃ pm, l[i]? = some pm ∧ pm.msg = PaxosMsg.accepted ⟨n, a⟩

/-- At most one queued Accepted message per round. -/
def AtMostOneAccepted (s : RState) : Prop :=
  ∀ i j n a b, accAt s.outgoing i n a → accAt s.outgoing j n b → i = j

/-- The promised round dominates the accepted round (spec section 8 invariant 2). -/
def InvPromise (s : RState) : Prop := Ballot.le s.stor.accepted_round s.stor.promise

/-- Every queued Accepted message carries a round at most the current promise. -/
def InvRound (s : RState) : Prop :=
  ∀ i n a, accAt s.outgoing i n a → Ballot.le n s.stor.promise

/-- Outside the Accept phase no Accepted message for the current promise is queued. -/
def InvPrep (s : RState) : Prop :=
  s.phase = Phase.prepare ∨ s.phase = Phase.recover →
    ∀ i a, ¬ accAt s.outgoing i s.stor.promise a

/-- In the Accept phase, any queued Accepted for the current promise is the one
referenced by latest_accepted_meta. -/
def InvAccMeta (s : RState) : Prop :=
  s.phase = Phase.accept →
    ∀ i a, accAt s.outgoing i s.stor.promise a →
      s.latest_accepted_meta = some (s.stor.promise, i)

/-- The accepted index of the Accepted message referenced by latest_accepted_meta
never exceeds the virtual log length. -/
def InvIdx (s : RState) : Prop :=
  ∀ i pm am, s.phase = Phase.accept → s.latest_accepted_meta = some (s.stor.promise, i) →
    s.outgoing[i]? = some pm → pm.msg = PaxosMsg.accepted am →
    am.accepted_idx ≤ InternalStorage.get_log_len s.stor

/-- The inductive invariant of the follower state machine. -/
def FollowerInv (s : RState) : Prop :=
  InvPromise s ∧ AtMostOneAccepted s ∧ InvRound s ∧ InvPrep s ∧ InvAccMeta s ∧ InvIdx s

/- Order lemmas for ballots. -/

theorem Ballot.le_refl (a : Ballot) : Ballot.le a a := Or.inr rfl

theorem Ballot.lt_trans {a b c : Ballot} (h1 : Ballot.lt a b) (h2 : Ballot.lt b c) :
    Ballot.lt a c := by
  rcases h1 with h1 | ⟨h1, h1p⟩ <;> rcases h2 with h2 | ⟨h2, h2p⟩ <;>
    first
    | exact Or.inl (by omega)
    | exact Or.inr ⟨by omega, by omega⟩

theorem Ballot.le_trans {a b c : Ballot} (h1 : Ballot.le a b) (h2 : Ballot.le b c) :
    Ballot.le a c := by
  rcases h1 with h1 | rfl
  · rcases h2 with h2 | rfl
    · exact Or.inl (Ballot.lt_trans h1 h2)
    · exact Or.inl h1
  · exact h2

theorem Ballot.lt_irrefl (a : Ballot) : ¬ Ballot.lt a a := by
  rintro (h | ⟨h, hp⟩) <;> omega

theorem Ballot.le_of_lt {a b : Ballot} (h : Ballot.lt a b) : Ballot.le a b := Or.inl h

theorem Ballot.ne_of_le_of_lt {a b c : Ballot} (h1 : Ballot.le a b) (h2 : Ballot.lt b c) :
    a ≠ c := by
  rintro rfl
  rcases h1 with h1 | rfl
  · exact Ballot.lt_irrefl _ (Ballot.lt_trans h2 h1)
  · exact Ballot.lt_irrefl _ h2

/- Reduction lemmas for the fault-free backend operations. -/

theorem bs_append_entries_noFaults (es : List Ent) (e : SE) :
    BStorage.append_entries noFaults es e =
      (Except.ok (e.st.log ++ es).length, ⟨{ e.st with log := e.st.log ++ es }, e.tr ++ [Ev.append es]⟩) := rfl

theorem bs_append_on_pref_noFaults (i : Nat) (es : List Ent) (e : SE) :
    BStorage.append_on_pref noFaults i es e =
      (Except.ok (e.st.log.take i ++ es).length,
       ⟨{ e.st with log := e.st.log.take i ++ es }, e.tr ++ [Ev.append_on_pref i es]⟩) := rfl

theorem bs_set_promise_noFaults (b : Ballot) (e : SE) :
    BStorage.set_promise noFaults b e =
      (Except.ok (), ⟨{ e.st with promise := b }, e.tr ++ [Ev.set_promise b]⟩) := rfl

theorem bs_set_decided_idx_noFaults (i : Nat) (e : SE) :
    BStorage.set_decided_idx noFaults i e =
      (Except.ok (), ⟨{ e.st with decided_idx := i }, e.tr ++ [Ev.set_decided_idx i]⟩) := rfl

theorem bs_set_accepted_round_noFaults (b : Ballot) (e : SE) :
    BStorage.set_accepted_round noFaults b e =
      (Except.ok (), ⟨{ e.st with accepted_round := b }, e.tr ++ [Ev.set_accepted_round b]⟩) := rfl

theorem bs_set_stopsign_noFaults (ss : StopSignEntry) (e : SE) :
    BStorage.set_stopsign noFaults ss e =
      (Except.ok (), ⟨{ e.st with stopsign := some ss }, e.tr ++ [Ev.set_stopsign ss]⟩) := rfl

theorem bs_trim_noFaults (i : Nat) (e : SE) :
    BStorage.trim noFaults i e =
      (Except.ok (), ⟨{ e.st with log := e.st.log.drop i }, e.tr ++ [Ev.trim i]⟩) := rfl

theorem bs_set_compacted_idx_noFaults (i : Nat) (e : SE) :
    BStorage.set_compacted_idx noFaults i e =
      (Except.ok (), ⟨{ e.st with compacted_idx := i }, e.tr ++ [Ev.set_compacted_idx i]⟩) := rfl

theorem bs_set_snapshot_noFaults (s : Option Snap) (e : SE) :
    BStorage.set_snapshot noFaults s e =
      (Except.ok (), ⟨{ e.st with snapshot := s }, e.tr ++ [Ev.set_snapshot s]⟩) := rfl

/- Arithmetic facts about the wrapping u64 subtraction. -/

theorem u64sub_of_le {a b : Nat} (hba : b ≤ a) (ha : a < U64) : u64sub a b = a - b := by
  unfold u64sub
  have h1 : a + U64 - b = U64 + (a - b) := by omega
  rw [h1, Nat.add_mod_left, Nat.mod_eq_of_lt (by omega)]

theorem u64sub_of_lt {a b : Nat} (hab : a < b) (hb : b < U64) : u64sub a b = U64 - (b - a) := by
  unfold u64sub
  have h1 : a + U64 - b = U64 - (b - a) := by omega
  rw [h1, Nat.mod_eq_of_lt (by omega)]

/-- C5: InternalStorage::set_snapshot is a successful no-op when idx is at most
the compacted index (for any fault pattern, since nothing is executed);
otherwise it writes compacted_idx, the snapshot slot and the trim in that order;
a failure of the slot write restores the prior compacted_idx, and a failure of
the trim restores both the prior compacted_idx and the prior snapshot, with the
error returned and no other state changed. -/
theorem c5_set_snapshot_rollback (st : Stor) (idx : Nat) (snap : Snap) (f : Faults) :
    (idx ≤ st.compacted_idx →
      InternalStorage.set_snapshot f idx snap ⟨st, []⟩ = (Except.ok (), ⟨st, []⟩)) ∧
    (st.compacted_idx < idx →
      InternalStorage.set_snapshot noFaults idx snap ⟨st, []⟩ =
        (Except.ok (),
         ⟨{ st with
            compacted_idx := idx
            snapshot := some snap
            log := st.log.drop (idx - st.compacted_idx) },
          [Ev.set_compacted_idx idx, Ev.set_snapshot (some snap),
           Ev.trim (idx - st.compacted_idx)]⟩)) ∧
    (st.compacted_idx < idx →
      InternalStorage.set_snapshot only_set_snapshot_fault idx snap ⟨st, []⟩ =
        (Except.error (), ⟨st, [Ev.set_compacted_idx idx, Ev.set_compacted_idx st.compacted_idx]⟩)) ∧
    (st.compacted_idx < idx →
      InternalStorage.set_snapshot only_trim_fault idx snap ⟨st, []⟩ =
        (Except.error (),
         ⟨st, [Ev.set_compacted_idx idx, Ev.set_snapshot (some snap),
           Ev.set_compacted_idx st.compacted_idx, Ev.set_snapshot st.snapshot]⟩)) := by
  refine ⟨fun h => ?_, fun h => ?_, fun h => ?_, fun h => ?_⟩
  · simp [InternalStorage.set_snapshot, Nat.not_lt.mpr h]
  · simp [InternalStorage.set_snapshot, BStorage.set_compacted_idx, BStorage.set_snapshot,
      BStorage.trim, noFaults, h]
  · simp [InternalStorage.set_snapshot, BStorage.set_compacted_idx, BStorage.set_snapshot,
      BStorage.trim, only_set_snapshot_fault, h]
  · simp [InternalStorage.set_snapshot, BStorage.set_compacted_idx, BStorage.set_snapshot,
      BStorage.trim, only_trim_fault, h]

/-- C5 witness: the trim-failure rollback at a concrete input. -/
theorem c5_witness :
    InternalStorage.set_snapshot only_trim_fault 4 (Snap.create [1])
        ⟨⟨[1, 2, 3, 4, 5], ⟨0, 0⟩, 4, ⟨0, 0⟩, 0, none, none⟩, []⟩ =
      (Except.error (),
       ⟨⟨[1, 2, 3, 4, 5], ⟨0, 0⟩, 4, ⟨0, 0⟩, 0, none, none⟩,
        [Ev.set_compacted_idx 4, Ev.set_snapshot (some (Snap.create [1])),
         Ev.set_compacted_idx 0, Ev.set_snapshot none]⟩) :=
  (c5_set_snapshot_rollback ⟨[1, 2, 3, 4, 5], ⟨0, 0⟩, 4, ⟨0, 0⟩, 0, none, none⟩ 4
    (Snap.create [1]) noFaults).2.2.2 (by decide)

/-- C6 (code bug): on the failing input (compacted_idx = 1, physical log [20,30],
no stored snapshot), merge_snapshot synthesizes its base snapshot with
create_snapshot at the physical log length, so the base covers only the entry 20;
the spec-modelled merge_snapshot (base over the full log) covers 20 and 30, and
the two installed snapshots differ. -/
theorem c6_merge_snapshot_divergence :
    (InternalStorage.merge_snapshot noFaults 3 (Snap.create [99])
        ⟨⟨[20, 30], ⟨0, 0⟩, 0, ⟨0, 0⟩, 1, none, none⟩, []⟩).2.st.snapshot =
      some (Snap.merge (Snap.create [20]) (Snap.create [99])) ∧
    (InternalStorage.merge_snapshot_spec noFaults 3 (Snap.create [99])
        ⟨⟨[20, 30], ⟨0, 0⟩, 0, ⟨0, 0⟩, 1, none, none⟩, []⟩).2.st.snapshot =
      some (Snap.merge (Snap.create [20, 30]) (Snap.create [99])) ∧
    Snap.create [20] ≠ Snap.create [20, 30] := by decide

/-- C7 counterexample: with compacted_idx = 1 and virtual length 2, the interval
[0, 2) has the part [0, 1) outside [compacted_idx, virtual_log_len), yet
get_entries returns the non-empty backed portion instead of an empty sequence. -/
theorem c7_counterexample :
    InternalStorage.get_entries ⟨[5], ⟨0, 0⟩, 2, ⟨0, 0⟩, 1, none, none⟩ 0 2 = [5] ∧
    (0 : Nat) < (⟨[5], ⟨0, 0⟩, 2, ⟨0, 0⟩, 1, none, none⟩ : Stor).compacted_idx ∧
    InternalStorage.get_log_len ⟨[5], ⟨0, 0⟩, 2, ⟨0, 0⟩, 1, none, none⟩ = 2 := by decide

/-- C7 amended: get_entries returns an empty sequence whenever the upper end of
[from, to) exceeds the virtual log length, while an interval whose lower part
falls below compacted_idx is silently clamped to start at compacted_idx rather
than returning empty. -/
theorem c7_get_entries_bounds (st : Stor) (from_idx to_idx : Nat) :
    (InternalStorage.get_log_len st < to_idx →
      InternalStorage.get_entries st from_idx to_idx = []) ∧
    (from_idx ≤ st.compacted_idx →
      InternalStorage.get_entries st from_idx to_idx =
        InternalStorage.get_entries st st.compacted_idx to_idx) := by
  constructor
  · intro h
    unfold InternalStorage.get_log_len at h
    unfold InternalStorage.get_entries BStorage.get_entries
    rw [if_neg (by omega)]
  · intro h
    unfold InternalStorage.get_entries
    congr 1
    all_goals omega

/-- C7 amended witness at a concrete input. -/
theorem c7_witness :
    InternalStorage.get_entries ⟨[5], ⟨0, 0⟩, 2, ⟨0, 0⟩, 1, none, none⟩ 0 5 = [] :=
  (c7_get_entries_bounds ⟨[5], ⟨0, 0⟩, 2, ⟨0, 0⟩, 1, none, none⟩ 0 5).1 (by decide)

/-- C10: append_on_prefix computes its physical truncation point with the
unguarded wrapping u64 subtraction from_idx - compacted_idx: when
compacted_idx ≤ from_idx the subtraction is exact and the suffix from from_idx
is truncated; when from_idx < compacted_idx it underflows to a huge index (in
particular larger than from_idx itself), so the truncation silently keeps the
whole log instead of failing; get_suffix and get_entries instead saturate the
translation at 0. -/
theorem c10_append_on_pref_unguarded (st : Stor) (from_idx : Nat) (es : List Ent) (tr : List Ev) :
    (st.compacted_idx ≤ from_idx → from_idx < U64 →
      u64sub from_idx st.compacted_idx = from_idx - st.compacted_idx ∧
      InternalStorage.append_on_pref noFaults from_idx es ⟨st, tr⟩ =
        (Except.ok ((st.log.take (from_idx - st.compacted_idx) ++ es).length + st.compacted_idx),
         ⟨{ st with log := st.log.take (from_idx - st.compacted_idx) ++ es },
          tr ++ [Ev.append_on_pref (from_idx - st.compacted_idx) es]⟩)) ∧
    (from_idx < st.compacted_idx → st.compacted_idx < U64 →
      u64sub from_idx st.compacted_idx = U64 - (st.compacted_idx - from_idx) ∧
      from_idx < u64sub from_idx st.compacted_idx ∧
      (st.log.length ≤ U64 - st.compacted_idx →
        InternalStorage.append_on_pref noFaults from_idx es ⟨st, tr⟩ =
          (Except.ok ((st.log ++ es).length + st.compacted_idx),
           ⟨{ st with log := st.log ++ es },
            tr ++ [Ev.append_on_pref (u64sub from_idx st.compacted_idx) es]⟩))) ∧
    (from_idx < st.compacted_idx →
      InternalStorage.get_suffix st from_idx = st.log ∧
      ∀ to_idx, InternalStorage.get_entries st from_idx to_idx =
        InternalStorage.get_entries st st.compacted_idx to_idx) := by
  have hU : U64 = 18446744073709551616 := rfl
  refine ⟨fun h1 h2 => ?_, fun h1 h2 => ?_, fun h1 => ?_⟩
  · have hs := u64sub_of_le h1 h2
    refine ⟨hs, ?_⟩
    unfold InternalStorage.append_on_pref
    simp [BStorage.append_on_pref, noFaults, hs]
  · have hs := u64sub_of_lt h1 h2
    refine ⟨hs, by omega, fun h3 => ?_⟩
    unfold InternalStorage.append_on_pref
    have htake : st.log.take (u64sub from_idx st.compacted_idx) = st.log :=
      List.take_of_length_le (by omega)
    simp [BStorage.append_on_pref, noFaults, htake]
  · constructor
    · unfold InternalStorage.get_suffix BStorage.get_suffix
      rw [Nat.min_eq_right (Nat.le_of_lt h1)]
      simp
    · intro to_idx
      unfold InternalStorage.get_entries
      congr 1
      all_goals omega

/-- C10 witness at a concrete input with from_idx below compacted_idx. -/
theorem c10_witness :
    u64sub 1 3 = U64 - 2 ∧
    InternalStorage.get_suffix ⟨[7], ⟨0, 0⟩, 0, ⟨0, 0⟩, 3, none, none⟩ 1 = [7] := by
  have h := c10_append_on_pref_unguarded ⟨[7], ⟨0, 0⟩, 0, ⟨0, 0⟩, 3, none, none⟩ 1 [] []
  exact ⟨(h.2.1 (by decide) (by decide)).1, (h.2.2 (by decide)).1⟩

theorem get_entry_type_eq_compacted (s : Stor) (i c v : Nat) :
    InternalStorage.get_entry_type s i c v = some IndexEntry.compacted ↔ i < c := by
  unfold InternalStorage.get_entry_type
  split_ifs with h1 h2 h3
  · simp [h1]
  · simp [h1]
  · cases hss : s.stopsign with
    | none => simp [h1]
    | some ss => by_cases hd : ss.decided <;> simp [hd, h1]
  · simp [h1]

theorem get_entry_type_ne_compacted {s : Stor} {i c v : Nat} {t : IndexEntry}
    (h : InternalStorage.get_entry_type s i c v = some t) (ht : t ≠ IndexEntry.compacted) :
    c ≤ i := by
  by_contra hc
  rw [Nat.not_le] at hc
  have h2 := (get_entry_type_eq_compacted s i c v).mpr hc
  rw [h] at h2
  exact ht (Option.some.inj h2)

/-- C8 counterexample: on a log of virtual length 3 (compacted_idx 0, no
stopsign), read over the range [0, 10) returns None although the starting
index 0 is in bounds, refuting the claimed iff in the forward direction. -/
theorem c8_counterexample :
    InternalStorage.read ⟨[1, 2, 3], ⟨0, 0⟩, 0, ⟨0, 0⟩, 0, none, none⟩
        (Bnd.incl 0) (Bnd.excl 10) = ReadRes.nofnd ∧
    InternalStorage.get_entry_type ⟨[1, 2, 3], ⟨0, 0⟩, 0, ⟨0, 0⟩, 0, none, none⟩ 0 0 3 =
      some IndexEntry.entry := by decide

/-- C8 amended: read returns None exactly when the last covered index
(end_idx - 1, with wrapping u64 subtraction) is out of bounds, or when it is at
least compacted_idx and the starting index is out of bounds (out of bounds
meaning get_entry_type yields none: past the readable end, where a decided
stop-sign extends the readable end by one); a range whose last covered index
falls below compacted_idx instead yields the compacted placeholder whatever the
start index is. -/
theorem c8_read_none_iff (st : Stor) (lo hi : Bnd) :
    InternalStorage.read st lo hi = ReadRes.nofnd ↔
      (InternalStorage.get_entry_type st (u64sub (InternalStorage.end_idx st hi) 1)
          st.compacted_idx (InternalStorage.get_log_len st) = none ∨
       (st.compacted_idx ≤ u64sub (InternalStorage.end_idx st hi) 1 ∧
        InternalStorage.get_entry_type st (InternalStorage.start_idx lo)
          st.compacted_idx (InternalStorage.get_log_len st) = none)) := by
  unfold InternalStorage.read
  rcases h1 : InternalStorage.get_entry_type st (u64sub (InternalStorage.end_idx st hi) 1)
      st.compacted_idx (InternalStorage.get_log_len st) with _ | t
  · simp [h1]
  · cases t with
    | compacted =>
      have hlt : u64sub (InternalStorage.end_idx st hi) 1 < st.compacted_idx :=
        (get_entry_type_eq_compacted st _ _ _).mp h1
      simp [h1, Nat.not_le.mpr hlt]
    | entry =>
      have hge : st.compacted_idx ≤ u64sub (InternalStorage.end_idx st hi) 1 :=
        get_entry_type_ne_compacted h1 (by simp)
      rcases h2 : InternalStorage.get_entry_type st (InternalStorage.start_idx lo)
          st.compacted_idx (InternalStorage.get_log_len st) with _ | ft
      · simp [h1, h2, hge]
      · cases ft <;> simp [h1, h2, hge]
    | stop_sign ss =>
      have hge : st.compacted_idx ≤ u64sub (InternalStorage.end_idx st hi) 1 :=
        get_entry_type_ne_compacted h1 (by simp)
      rcases h2 : InternalStorage.get_entry_type st (InternalStorage.start_idx lo)
          st.compacted_idx (InternalStorage.get_log_len st) with _ | ft
      · simp [h1, h2, hge]
      · cases ft <;> simp [h1, h2, hge]

/-- Characterization of handle_prepare on a fault-free backend: outside the gate
nothing changes; inside it, leader, state, sequence number, the persisted
promise, the cached Promise and the outgoing queue are updated as in
follower.rs. -/
theorem handle_prepare_spec (u : Bool) (p : PrepareMsg) (sender : Nat) (s : RState) :
    (¬ (Ballot.lt s.stor.promise p.n ∨ (s.stor.promise = p.n ∧ s.phase = Phase.recover)) ∧
      SequencePaxos.handle_prepare noFaults u p sender s = ⟨true, s, []⟩) ∨
    ((Ballot.lt s.stor.promise p.n ∨ (s.stor.promise = p.n ∧ s.phase = Phase.recover)) ∧
      SequencePaxos.handle_prepare noFaults u p sender s =
        ⟨true,
         { s with
           leader := p.n
           role := Role.follower
           phase := Phase.prepare
           current_seq_num := seq_default
           cached_promise := some (SequencePaxos.prepare_promise u p s.stor)
           outgoing := s.outgoing ++
             [⟨s.pid, sender, PaxosMsg.promise (SequencePaxos.prepare_promise u p s.stor)⟩]
           stor := { s.stor with promise := p.n } },
         [Ev.set_promise p.n]⟩) := by
  by_cases hg : Ballot.lt s.stor.promise p.n ∨ (s.stor.promise = p.n ∧ s.phase = Phase.recover)
  · right
    refine ⟨hg, ?_⟩
    unfold SequencePaxos.handle_prepare
    rw [if_pos hg]
    simp [BStorage.set_promise, noFaults]
  · left
    refine ⟨hg, ?_⟩
    unfold SequencePaxos.handle_prepare
    rw [if_neg hg]

/-- On a fault-free backend, InternalStorage::set_snapshot succeeds and only
appends to the write trace. -/
theorem iss_noFaults_ok (idx : Nat) (snap : Snap) (e : SE) :
    (InternalStorage.set_snapshot noFaults idx snap e).1 = Except.ok () ∧
    ∃ t, (InternalStorage.set_snapshot noFaults idx snap e).2.tr = e.tr ++ t := by
  by_cases h : e.st.compacted_idx < idx
  · simp [InternalStorage.set_snapshot, h, BStorage.set_compacted_idx, BStorage.set_snapshot,
      BStorage.trim, noFaults]
  · simp [InternalStorage.set_snapshot, h]

/-- On a fault-free backend, InternalStorage::merge_snapshot succeeds and only
appends to the write trace. -/
theorem imerge_noFaults_ok (idx : Nat) (delta : Snap) (e : SE) :
    (InternalStorage.merge_snapshot noFaults idx delta e).1 = Except.ok () ∧
    ∃ t, (InternalStorage.merge_snapshot noFaults idx delta e).2.tr = e.tr ++ t := by
  unfold InternalStorage.merge_snapshot
  exact iss_noFaults_ok idx _ e

/-- C2: under the gate (promise == n and state == (Follower, Prepare)),
handle_acceptsync commits set_accepted_round(n) and then
set_decided_idx(accsync.decided_idx) as its first two writes; and when
set_decided_idx fails, the handler aborts with accepted_round restored to the
value recorded before the handler's writes (the second set_accepted_round in
the trace), leaving the decided index unchanged. -/
theorem c2_acceptsync (m : AcceptSyncMsg) (sender : Nat) (s : RState)
    (hg : s.stor.promise = m.n ∧ s.role = Role.follower ∧ s.phase = Phase.prepare) :
    ((SequencePaxos.handle_acceptsync noFaults m sender s).ok = true ∧
     ∃ t, (SequencePaxos.handle_acceptsync noFaults m sender s).tr =
       Ev.set_accepted_round m.n :: Ev.set_decided_idx m.decided_idx :: t) ∧
    ((SequencePaxos.handle_acceptsync only_set_decided_fault m sender s).ok = false ∧
     (SequencePaxos.handle_acceptsync only_set_decided_fault m sender s).st.stor.accepted_round =
       s.stor.accepted_round ∧
     (SequencePaxos.handle_acceptsync only_set_decided_fault m sender s).st.stor.decided_idx =
       s.stor.decided_idx ∧
     (SequencePaxos.handle_acceptsync only_set_decided_fault m sender s).tr =
       [Ev.set_accepted_round m.n, Ev.set_accepted_round s.stor.accepted_round]) := by
  constructor
  · unfold SequencePaxos.handle_acceptsync
    rw [if_pos hg]
    simp only [bs_set_accepted_round_noFaults, bs_set_decided_idx_noFaults]
    simp only [List.nil_append, List.singleton_append]
    cases hds : m.decided_snapshot with
    | none =>
      simp only [InternalStorage.append_on_pref, BStorage.append_on_pref, noFaults]
      cases hss : m.stopsign with
      | none => simp [SequencePaxos.forward_pending_proposals]
      | some ss =>
        by_cases hda : (match s.stor.stopsign with
          | some entry => !entry.decided
          | none => true) = true <;>
          simp [hda, SequencePaxos.accept_stopsign, BStorage.set_stopsign, noFaults]
    | some sty =>
      cases sty with
      | complete c =>
        rcases hr : InternalStorage.set_snapshot noFaults m.decided_idx c
            ⟨⟨s.stor.log, s.stor.promise, m.decided_idx, m.n, s.stor.compacted_idx,
              s.stor.stopsign, s.stor.snapshot⟩,
             [Ev.set_accepted_round m.n, Ev.set_decided_idx m.decided_idx]⟩ with ⟨r1, e3⟩
        have h1 := iss_noFaults_ok m.decided_idx c
          ⟨⟨s.stor.log, s.stor.promise, m.decided_idx, m.n, s.stor.compacted_idx,
            s.stor.stopsign, s.stor.snapshot⟩,
           [Ev.set_accepted_round m.n, Ev.set_decided_idx m.decided_idx]⟩
        rw [hr] at h1
        obtain ⟨h1a, t1, h1b⟩ := h1
        simp only at h1a h1b
        subst h1a
        simp only [hr]
        simp only [InternalStorage.append_entries, BStorage.append_entries, noFaults]
        cases hss : m.stopsign with
        | none => simp [SequencePaxos.forward_pending_proposals, h1b]
        | some ss =>
          by_cases hda : (match e3.st.stopsign with
            | some entry => !entry.decided
            | none => true) = true <;>
            simp [hda, SequencePaxos.accept_stopsign, BStorage.set_stopsign, noFaults, h1b]
      | delta d =>
        rcases hr : InternalStorage.merge_snapshot noFaults m.decided_idx d
            ⟨⟨s.stor.log, s.stor.promise, m.decided_idx, m.n, s.stor.compacted_idx,
              s.stor.stopsign, s.stor.snapshot⟩,
             [Ev.set_accepted_round m.n, Ev.set_decided_idx m.decided_idx]⟩ with ⟨r1, e3⟩
        have h1 := imerge_noFaults_ok m.decided_idx d
          ⟨⟨s.stor.log, s.stor.promise, m.decided_idx, m.n, s.stor.compacted_idx,
            s.stor.stopsign, s.stor.snapshot⟩,
           [Ev.set_accepted_round m.n, Ev.set_decided_idx m.decided_idx]⟩
        rw [hr] at h1
        obtain ⟨h1a, t1, h1b⟩ := h1
        simp only at h1a h1b
        subst h1a
        simp only [hr]
        simp only [InternalStorage.append_entries, BStorage.append_entries, noFaults]
        cases hss : m.stopsign with
        | none => simp [SequencePaxos.forward_pending_proposals, h1b]
        | some ss =>
          by_cases hda : (match e3.st.stopsign with
            | some entry => !entry.decided
            | none => true) = true <;>
            simp [hda, SequencePaxos.accept_stopsign, BStorage.set_stopsign, noFaults, h1b]
  · unfold SequencePaxos.handle_acceptsync
    rw [if_pos hg]
    simp [BStorage.set_accepted_round, BStorage.set_decided_idx, only_set_decided_fault]

/-- C3: handle_prepare acts exactly when old_promise < n, or old_promise == n
with the phase Recover; it then sets leader, (Follower, Prepare), the default
sequence number, persists the promise, caches the constructed Promise and
enqueues it to the sender; when the gate fails nothing changes and nothing is
enqueued. -/
theorem c3_handle_prepare (u : Bool) (p : PrepareMsg) (sender : Nat) (s : RState) :
    ((Ballot.lt s.stor.promise p.n ∨ (s.stor.promise = p.n ∧ s.phase = Phase.recover)) →
      SequencePaxos.handle_prepare noFaults u p sender s =
        ⟨true,
         { s with
           leader := p.n
           role := Role.follower
           phase := Phase.prepare
           current_seq_num := seq_default
           cached_promise := some (SequencePaxos.prepare_promise u p s.stor)
           outgoing := s.outgoing ++
             [⟨s.pid, sender, PaxosMsg.promise (SequencePaxos.prepare_promise u p s.stor)⟩]
           stor := { s.stor with promise := p.n } },
         [Ev.set_promise p.n]⟩) ∧
    (¬ (Ballot.lt s.stor.promise p.n ∨ (s.stor.promise = p.n ∧ s.phase = Phase.recover)) →
      SequencePaxos.handle_prepare noFaults u p sender s = ⟨true, s, []⟩) := by
  rcases handle_prepare_spec u p sender s with ⟨hn, he⟩ | ⟨hy, he⟩
  · exact ⟨fun h => absurd h hn, fun _ => he⟩
  · exact ⟨fun _ => he, fun h => absurd hy h⟩

/-- C3 witness at the spec's literal Prepare scenario. -/
theorem c3_witness :
    SequencePaxos.handle_prepare noFaults false ⟨⟨5, 1⟩, ⟨3, 1⟩, 3, 2⟩ 1
        ⟨2, ⟨3, 1⟩, Role.follower, Phase.accept, ⟨0, 5⟩, none, none, [], [],
         ⟨[10, 11, 12], ⟨3, 1⟩, 2, ⟨3, 1⟩, 0, none, none⟩⟩ =
      ⟨true,
       ⟨2, ⟨5, 1⟩, Role.follower, Phase.prepare, seq_default,
        some (SequencePaxos.prepare_promise false ⟨⟨5, 1⟩, ⟨3, 1⟩, 3, 2⟩
          ⟨[10, 11, 12], ⟨3, 1⟩, 2, ⟨3, 1⟩, 0, none, none⟩),
        none, [],
        [⟨2, 1, PaxosMsg.promise (SequencePaxos.prepare_promise false ⟨⟨5, 1⟩, ⟨3, 1⟩, 3, 2⟩
          ⟨[10, 11, 12], ⟨3, 1⟩, 2, ⟨3, 1⟩, 0, none, none⟩)⟩],
        ⟨[10, 11, 12], ⟨5, 1⟩, 2, ⟨3, 1⟩, 0, none, none⟩⟩,
       [Ev.set_promise ⟨5, 1⟩]⟩ :=
  (c3_handle_prepare false ⟨⟨5, 1⟩, ⟨3, 1⟩, 3, 2⟩ 1
    ⟨2, ⟨3, 1⟩, Role.follower, Phase.accept, ⟨0, 5⟩, none, none, [], [],
     ⟨[10, 11, 12], ⟨3, 1⟩, 2, ⟨3, 1⟩, 0, none, none⟩⟩).1 (by decide)

/-- C4 amended: in the branch na > prep.n_accepted, prep.decided_idx <
decided_idx_local, snapshots enabled, the Promise carries decided_snapshot =
some (create_diff_snapshot prep.decided_idx decided_idx_local) and suffix =
get_suffix decided_idx_local; the snapshot is Delta exactly when compacted_idx <
prep.decided_idx and Complete otherwise (not always Delta as claimed). -/
theorem c4_amended (p : PrepareMsg) (sender : Nat) (s : RState)
    (hg : Ballot.lt s.stor.promise p.n ∨ (s.stor.promise = p.n ∧ s.phase = Phase.recover))
    (hna : Ballot.lt p.n_accepted s.stor.accepted_round)
    (hld : p.decided_idx < s.stor.decided_idx) :
    (SequencePaxos.handle_prepare noFaults true p sender s).st.cached_promise =
      some (SequencePaxos.prepare_promise true p s.stor) ∧
    (SequencePaxos.prepare_promise true p s.stor).decided_snapshot =
      some (InternalStorage.create_diff_snapshot s.stor p.decided_idx s.stor.decided_idx) ∧
    (SequencePaxos.prepare_promise true p s.stor).suffix =
      InternalStorage.get_suffix s.stor s.stor.decided_idx ∧
    (s.stor.compacted_idx < p.decided_idx →
      InternalStorage.create_diff_snapshot s.stor p.decided_idx s.stor.decided_idx =
        SnapshotType.delta
          (Snap.create (InternalStorage.get_entries s.stor p.decided_idx s.stor.decided_idx))) ∧
    (p.decided_idx ≤ s.stor.compacted_idx →
      InternalStorage.create_diff_snapshot s.stor p.decided_idx s.stor.decided_idx =
        SnapshotType.complete (InternalStorage.create_snapshot s.stor s.stor.decided_idx)) := by
  refine ⟨?_, ?_, ?_, fun h => ?_, fun h => ?_⟩
  · rcases handle_prepare_spec true p sender s with ⟨hn, _⟩ | ⟨_, he⟩
    · exact absurd hg hn
    · rw [he]
  · unfold SequencePaxos.prepare_promise SequencePaxos.prepare_pair
    simp [hna, hld]
  · unfold SequencePaxos.prepare_promise SequencePaxos.prepare_pair
    simp [hna, hld]
  · unfold InternalStorage.create_diff_snapshot
    rw [if_neg (by omega)]
  · unfold InternalStorage.create_diff_snapshot
    rw [if_pos h]

/-- C4 amended witness at a concrete input. -/
theorem c4_witness :
    (SequencePaxos.prepare_promise true ⟨⟨3, 1⟩, ⟨1, 1⟩, 0, 1⟩
        ⟨[10, 20], ⟨1, 1⟩, 2, ⟨2, 1⟩, 1, none, none⟩).decided_snapshot =
      some (InternalStorage.create_diff_snapshot ⟨[10, 20], ⟨1, 1⟩, 2, ⟨2, 1⟩, 1, none, none⟩ 1 2) :=
  (c4_amended ⟨⟨3, 1⟩, ⟨1, 1⟩, 0, 1⟩ 1
    ⟨2, ⟨1, 1⟩, Role.follower, Phase.accept, ⟨0, 5⟩, none, none, [], [],
     ⟨[10, 20], ⟨1, 1⟩, 2, ⟨2, 1⟩, 1, none, none⟩⟩ (by decide) (by decide) (by decide)).2.1

/-- C4 counterexample: with compacted_idx = 1 >= prep.decided_idx = 1 the gate
conditions of the claim hold, yet the Promise's decided_snapshot is a Complete
snapshot, not a Delta. -/
theorem c4_counterexample :
    (Ballot.lt (⟨1, 1⟩ : Ballot) ⟨3, 1⟩ ∧ Ballot.lt (⟨1, 1⟩ : Ballot) ⟨2, 1⟩ ∧ (1 : Nat) < 2) ∧
    ((SequencePaxos.handle_prepare noFaults true ⟨⟨3, 1⟩, ⟨1, 1⟩, 0, 1⟩ 1
        ⟨2, ⟨1, 1⟩, Role.follower, Phase.accept, ⟨0, 5⟩, none, none, [], [],
         ⟨[10, 20], ⟨1, 1⟩, 2, ⟨2, 1⟩, 1, none, none⟩⟩).st.cached_promise).map
      (fun pm => pm.decided_snapshot) =
      some (some (SnapshotType.complete (Snap.create [10]))) ∧
    (match SnapshotType.complete (Snap.create [10]) with
     | SnapshotType.delta _ => False
     | _ => True) := by decide

/-- C2 witness at the spec's literal AcceptSync scenario. -/
theorem c2_witness :
    (SequencePaxos.handle_acceptsync noFaults ⟨⟨5, 1⟩, none, [13, 14], 3, 2, none, ⟨1, 1⟩⟩ 1
        ⟨2, ⟨5, 1⟩, Role.follower, Phase.prepare, seq_default, none, none, [], [],
         ⟨[10, 11, 12], ⟨5, 1⟩, 2, ⟨3, 1⟩, 0, none, none⟩⟩).ok = true ∧
    (SequencePaxos.handle_acceptsync only_set_decided_fault
        ⟨⟨5, 1⟩, none, [13, 14], 3, 2, none, ⟨1, 1⟩⟩ 1
        ⟨2, ⟨5, 1⟩, Role.follower, Phase.prepare, seq_default, none, none, [], [],
         ⟨[10, 11, 12], ⟨5, 1⟩, 2, ⟨3, 1⟩, 0, none, none⟩⟩).tr =
      [Ev.set_accepted_round ⟨5, 1⟩, Ev.set_accepted_round ⟨3, 1⟩] :=
  ⟨(c2_acceptsync ⟨⟨5, 1⟩, none, [13, 14], 3, 2, none, ⟨1, 1⟩⟩ 1
      ⟨2, ⟨5, 1⟩, Role.follower, Phase.prepare, seq_default, none, none, [], [],
       ⟨[10, 11, 12], ⟨5, 1⟩, 2, ⟨3, 1⟩, 0, none, none⟩⟩ (by decide)).1.1,
   (c2_acceptsync ⟨⟨5, 1⟩, none, [13, 14], 3, 2, none, ⟨1, 1⟩⟩ 1
      ⟨2, ⟨5, 1⟩, Role.follower, Phase.prepare, seq_default, none, none, [], [],
       ⟨[10, 11, 12], ⟨5, 1⟩, 2, ⟨3, 1⟩, 0, none, none⟩⟩ (by decide)).2.2.2.2⟩

theorem accAt_append_iff (l l' : List PaxosMessage) (i : Nat) (n : Ballot) (a : Nat) :
    accAt (l ++ l') i n a ↔
      (i < l.length ∧ accAt l i n a) ∨ (l.length ≤ i ∧ accAt l' (i - l.length) n a) := by
  unfold accAt
  rw [List.getElem?_append]
  by_cases h : i < l.length
  · simp [h]
  · simp [h, Nat.le_of_not_lt h]

theorem accAt_set_iff (l : List PaxosMessage) (j : Nat) (m : PaxosMessage) (i : Nat)
    (n : Ballot) (a : Nat) :
    accAt (l.set j m) i n a ↔
      (j = i ∧ j < l.length ∧ m.msg = PaxosMsg.accepted ⟨n, a⟩) ∨ (j ≠ i ∧ accAt l i n a) := by
  unfold accAt
  rw [List.getElem?_set]
  by_cases h : j = i
  · by_cases h2 : j < l.length <;> simp [h, h2] <;> aesop
  · simp [h]

theorem accAt_singleton (m : PaxosMessage) (i : Nat) (n : Ballot) (a : Nat) :
    accAt [m] i n a ↔ i = 0 ∧ m.msg = PaxosMsg.accepted ⟨n, a⟩ := by
  unfold accAt
  cases i with
  | zero => simp
  | succ k => simp

theorem iss_noFaults_frame (idx : Nat) (snap : Snap) (e : SE) :
    (InternalStorage.set_snapshot noFaults idx snap e).1 = Except.ok () ∧
    (InternalStorage.set_snapshot noFaults idx snap e).2.st.promise = e.st.promise ∧
    (InternalStorage.set_snapshot noFaults idx snap e).2.st.accepted_round = e.st.accepted_round ∧
    (InternalStorage.set_snapshot noFaults idx snap e).2.st.decided_idx = e.st.decided_idx ∧
    (InternalStorage.set_snapshot noFaults idx snap e).2.st.stopsign = e.st.stopsign := by
  by_cases h : e.st.compacted_idx < idx
  · simp [InternalStorage.set_snapshot, h, BStorage.set_compacted_idx, BStorage.set_snapshot,
      BStorage.trim, noFaults]
  · simp [InternalStorage.set_snapshot, h]

theorem imerge_noFaults_frame (idx : Nat) (delta : Snap) (e : SE) :
    (InternalStorage.merge_snapshot noFaults idx delta e).1 = Except.ok () ∧
    (InternalStorage.merge_snapshot noFaults idx delta e).2.st.promise = e.st.promise ∧
    (InternalStorage.merge_snapshot noFaults idx delta e).2.st.accepted_round = e.st.accepted_round ∧
    (InternalStorage.merge_snapshot noFaults idx delta e).2.st.decided_idx = e.st.decided_idx ∧
    (InternalStorage.merge_snapshot noFaults idx delta e).2.st.stopsign = e.st.stopsign := by
  unfold InternalStorage.merge_snapshot
  exact iss_noFaults_frame idx _ e

theorem acceptsync_spec (m : AcceptSyncMsg) (sender : Nat) (s s' : RState) (tr : List Ev)
    (h : SequencePaxos.handle_acceptsync noFaults m sender s = ⟨true, s', tr⟩) :
    s' = s ∨
    (s.stor.promise = m.n ∧ s.role = Role.follower ∧ s.phase = Phase.prepare ∧
     s'.role = Role.follower ∧ s'.phase = Phase.accept ∧
     s'.stor.promise = s.stor.promise ∧
     s'.stor.accepted_round = m.n ∧
     s'.latest_accepted_meta = some (m.n, s.outgoing.length) ∧
     ∃ aidx rest,
       s'.outgoing = s.outgoing ++ (⟨s.pid, sender, PaxosMsg.accepted ⟨m.n, aidx⟩⟩ :: rest) ∧
       (∀ pm ∈ rest, ∀ am, pm.msg ≠ PaxosMsg.accepted am) ∧
       aidx = InternalStorage.get_log_len s'.stor) := by
  by_cases hg : s.stor.promise = m.n ∧ s.role = Role.follower ∧ s.phase = Phase.prepare
  case neg =>
    left
    unfold SequencePaxos.handle_acceptsync at h
    rw [if_neg hg] at h
    cases h
    rfl
  case pos =>
    right
    unfold SequencePaxos.handle_acceptsync at h
    rw [if_pos hg] at h
    simp only [bs_set_accepted_round_noFaults, bs_set_decided_idx_noFaults] at h
    simp only [List.nil_append, List.singleton_append] at h
    refine ⟨hg.1, hg.2.1, hg.2.2, ?_⟩
    have hpr : s.stor.promise = s.stor.promise := rfl
    have har : m.n = m.n := rfl
    cases hds : m.decided_snapshot with
    | none =>
      simp only [hds] at h
      simp only [InternalStorage.append_on_pref, bs_append_on_pref_noFaults] at h
      cases hss : m.stopsign with
      | none =>
        simp only [hss, SequencePaxos.forward_pending_proposals, HRes.mk.injEq, true_and] at h
        obtain ⟨h1, h2⟩ := h
        subst h1
        refine ⟨rfl, rfl, by simp [hpr], by simp [har], rfl,
          (s.stor.log.take (u64sub m.sync_idx s.stor.compacted_idx) ++ m.suffix).length +
            s.stor.compacted_idx, [], by simp, by simp, ?_⟩
        simp only [InternalStorage.get_log_len, List.length_append, List.length_take]
        omega
      | some ss0 =>
        simp only [hss] at h
        by_cases hda : (match s.stor.stopsign with
          | some entry => !entry.decided
          | none => true) = true
        · rw [if_pos hda] at h
          simp only [SequencePaxos.accept_stopsign, bs_set_stopsign_noFaults,
            HRes.mk.injEq, true_and] at h
          obtain ⟨h1, h2⟩ := h
          subst h1
          refine ⟨rfl, rfl, by simp [hpr], by simp [har], rfl,
            (s.stor.log.take (u64sub m.sync_idx s.stor.compacted_idx) ++ m.suffix).length +
            s.stor.compacted_idx,
            [⟨s.pid, sender, PaxosMsg.accepted_stopsign m.n⟩], by simp, by simp, ?_⟩
          simp only [InternalStorage.get_log_len, List.length_append, List.length_take]
          omega
        · rw [if_neg hda] at h
          simp only [HRes.mk.injEq, true_and] at h
          obtain ⟨h1, h2⟩ := h
          subst h1
          refine ⟨rfl, rfl, by simp [hpr], by simp [har], rfl,
            (s.stor.log.take (u64sub m.sync_idx s.stor.compacted_idx) ++ m.suffix).length +
            s.stor.compacted_idx,
            [⟨s.pid, sender, PaxosMsg.accepted_stopsign m.n⟩], by simp, by simp, ?_⟩
          simp only [InternalStorage.get_log_len, List.length_append, List.length_take]
          omega
    | some sty =>
      cases sty with
      | complete c0 =>
        simp only [hds] at h
        obtain ⟨hok, hpr0, har0, hdi, hsse⟩ := iss_noFaults_frame m.decided_idx c0
          ⟨⟨s.stor.log, s.stor.promise, m.decided_idx, m.n, s.stor.compacted_idx,
            s.stor.stopsign, s.stor.snapshot⟩,
           [Ev.set_accepted_round m.n, Ev.set_decided_idx m.decided_idx]⟩
        set e3 : SE := (InternalStorage.set_snapshot noFaults m.decided_idx c0
          ⟨⟨s.stor.log, s.stor.promise, m.decided_idx, m.n, s.stor.compacted_idx,
            s.stor.stopsign, s.stor.snapshot⟩,
           [Ev.set_accepted_round m.n, Ev.set_decided_idx m.decided_idx]⟩).2 with hE
        have hsplit : InternalStorage.set_snapshot noFaults m.decided_idx c0
            ⟨⟨s.stor.log, s.stor.promise, m.decided_idx, m.n, s.stor.compacted_idx,
              s.stor.stopsign, s.stor.snapshot⟩,
             [Ev.set_accepted_round m.n, Ev.set_decided_idx m.decided_idx]⟩ =
            (Except.ok (), e3) := by
          rw [hE, ← hok]
        have hpr : e3.st.promise = s.stor.promise := by simpa using hpr0
        have har : e3.st.accepted_round = m.n := by simpa using har0
        rw [hsplit] at h
        simp only [InternalStorage.append_entries, bs_append_entries_noFaults] at h
        cases hss : m.stopsign with
        | none =>
          simp only [hss, SequencePaxos.forward_pending_proposals, HRes.mk.injEq, true_and] at h
          obtain ⟨h1, h2⟩ := h
          subst h1
          refine ⟨rfl, rfl, by simp [hpr], by simp [har], rfl,
            (e3.st.log ++ m.suffix).length + e3.st.compacted_idx, [], by simp, by simp, ?_⟩
          simp only [InternalStorage.get_log_len, List.length_append, List.length_take]
          omega
        | some ss0 =>
          simp only [hss] at h
          by_cases hda : (match e3.st.stopsign with
            | some entry => !entry.decided
            | none => true) = true
          · rw [if_pos hda] at h
            simp only [SequencePaxos.accept_stopsign, bs_set_stopsign_noFaults,
              HRes.mk.injEq, true_and] at h
            obtain ⟨h1, h2⟩ := h
            subst h1
            refine ⟨rfl, rfl, by simp [hpr], by simp [har], rfl,
              (e3.st.log ++ m.suffix).length + e3.st.compacted_idx,
              [⟨s.pid, sender, PaxosMsg.accepted_stopsign m.n⟩], by simp, by simp, ?_⟩
            simp only [InternalStorage.get_log_len, List.length_append, List.length_take]
            omega
          · rw [if_neg hda] at h
            simp only [HRes.mk.injEq, true_and] at h
            obtain ⟨h1, h2⟩ := h
            subst h1
            refine ⟨rfl, rfl, by simp [hpr], by simp [har], rfl,
              (e3.st.log ++ m.suffix).length + e3.st.compacted_idx,
              [⟨s.pid, sender, PaxosMsg.accepted_stopsign m.n⟩], by simp, by simp, ?_⟩
            simp only [InternalStorage.get_log_len, List.length_append, List.length_take]
            omega
      | delta d0 =>
        simp only [hds] at h
        obtain ⟨hok, hpr0, har0, hdi, hsse⟩ := imerge_noFaults_frame m.decided_idx d0
          ⟨⟨s.stor.log, s.stor.promise, m.decided_idx, m.n, s.stor.compacted_idx,
            s.stor.stopsign, s.stor.snapshot⟩,
           [Ev.set_accepted_round m.n, Ev.set_decided_idx m.decided_idx]⟩
        set e3 : SE := (InternalStorage.merge_snapshot noFaults m.decided_idx d0
          ⟨⟨s.stor.log, s.stor.promise, m.decided_idx, m.n, s.stor.compacted_idx,
            s.stor.stopsign, s.stor.snapshot⟩,
           [Ev.set_accepted_round m.n, Ev.set_decided_idx m.decided_idx]⟩).2 with hE
        have hsplit : InternalStorage.merge_snapshot noFaults m.decided_idx d0
            ⟨⟨s.stor.log, s.stor.promise, m.decided_idx, m.n, s.stor.compacted_idx,
              s.stor.stopsign, s.stor.snapshot⟩,
             [Ev.set_accepted_round m.n, Ev.set_decided_idx m.decided_idx]⟩ =
            (Except.ok (), e3) := by
          rw [hE, ← hok]
        have hpr : e3.st.promise = s.stor.promise := by simpa using hpr0
        have har : e3.st.accepted_round = m.n := by simpa using har0
        rw [hsplit] at h
        simp only [InternalStorage.append_entries, bs_append_entries_noFaults] at h
        cases hss : m.stopsign with
        | none =>
          simp only [hss, SequencePaxos.forward_pending_proposals, HRes.mk.injEq, true_and] at h
          obtain ⟨h1, h2⟩ := h
          subst h1
          refine ⟨rfl, rfl, by simp [hpr], by simp [har], rfl,
            (e3.st.log ++ m.suffix).length + e3.st.compacted_idx, [], by simp, by simp, ?_⟩
          simp only [InternalStorage.get_log_len, List.length_append, List.length_take]
          omega
        | some ss0 =>
          simp only [hss] at h
          by_cases hda : (match e3.st.stopsign with
            | some entry => !entry.decided
            | none => true) = true
          · rw [if_pos hda] at h
            simp only [SequencePaxos.accept_stopsign, bs_set_stopsign_noFaults,
              HRes.mk.injEq, true_and] at h
            obtain ⟨h1, h2⟩ := h
            subst h1
            refine ⟨rfl, rfl, by simp [hpr], by simp [har], rfl,
              (e3.st.log ++ m.suffix).length + e3.st.compacted_idx,
              [⟨s.pid, sender, PaxosMsg.accepted_stopsign m.n⟩], by simp, by simp, ?_⟩
            simp only [InternalStorage.get_log_len, List.length_append, List.length_take]
            omega
          · rw [if_neg hda] at h
            simp only [HRes.mk.injEq, true_and] at h
            obtain ⟨h1, h2⟩ := h
            subst h1
            refine ⟨rfl, rfl, by simp [hpr], by simp [har], rfl,
              (e3.st.log ++ m.suffix).length + e3.st.compacted_idx,
              [⟨s.pid, sender, PaxosMsg.accepted_stopsign m.n⟩], by simp, by simp, ?_⟩
            simp only [InternalStorage.get_log_len, List.length_append, List.length_take]
            omega

theorem acceptdecide_core_spec (m : AcceptDecideMsg) (old_ar : Option Ballot)
    (old_di : Nat) (s2 s' : RState) (tr0 tr : List Ev)
    (h : SequencePaxos.acceptdecide_core noFaults m old_ar old_di s2 tr0 = ⟨true, s', tr⟩) :
    s'.pid = s2.pid ∧ s'.leader = s2.leader ∧ s'.role = s2.role ∧ s'.phase = s2.phase ∧
    s'.current_seq_num = s2.current_seq_num ∧
    s'.stor.promise = s2.stor.promise ∧
    s'.stor.accepted_round = s2.stor.accepted_round ∧
    s'.stor.log = s2.stor.log ++ m.entries ∧
    s'.stor.compacted_idx = s2.stor.compacted_idx ∧
    ∃ aidx, aidx = InternalStorage.get_log_len s'.stor ∧
      ((∃ j pm0 am,
          s2.latest_accepted_meta = some (m.n, j) ∧
          s'.latest_accepted_meta = some (m.n, j) ∧
          s2.outgoing[j]? = some pm0 ∧ pm0.msg = PaxosMsg.accepted am ∧
          s'.outgoing = s2.outgoing.set j
            ⟨pm0.src, pm0.dst, PaxosMsg.accepted ⟨am.n, aidx⟩⟩) ∨
       (s'.latest_accepted_meta = some (m.n, s2.outgoing.length) ∧
        s'.outgoing = s2.outgoing ++
          [⟨s2.pid, s2.leader.pid, PaxosMsg.accepted ⟨m.n, aidx⟩⟩] ∧
        (s2.latest_accepted_meta = none ∨
         ∃ r j, s2.latest_accepted_meta = some (r, j) ∧ r ≠ m.n))) := by
  unfold SequencePaxos.acceptdecide_core at h
  simp only [] at h
  by_cases hdec : old_di < m.decided_idx
  · rw [if_pos hdec] at h
    simp only [bs_set_decided_idx_noFaults] at h
    unfold SequencePaxos.accept_entries at h
    simp only [InternalStorage.append_entries, bs_append_entries_noFaults] at h
    cases hmeta : s2.latest_accepted_meta with
    | none =>
      simp only [hmeta, HRes.mk.injEq, true_and] at h
      obtain ⟨h1, h2⟩ := h
      subst h1
      refine ⟨rfl, rfl, rfl, rfl, rfl, rfl, rfl, rfl, rfl,
        (s2.stor.log ++ m.entries).length + s2.stor.compacted_idx, ?_, Or.inr ⟨rfl, rfl, Or.inl rfl⟩⟩
      simp only [InternalStorage.get_log_len, List.length_append]
      omega
    | some rj =>
      obtain ⟨r, j⟩ := rj
      simp only [hmeta] at h
      by_cases hr : r = m.n
      · subst hr
        rw [if_pos rfl] at h
        cases hoj : s2.outgoing[j]? with
        | none =>
          simp only [hoj, HRes.mk.injEq, Bool.false_eq_true, false_and] at h
        | some pm0 =>
          simp only [hoj] at h
          cases hmsg : pm0.msg with
          | promise pp =>
            simp only [hmsg, HRes.mk.injEq, Bool.false_eq_true, false_and] at h
          | accepted_stopsign nn =>
            simp only [hmsg, HRes.mk.injEq, Bool.false_eq_true, false_and] at h
          | accepted am =>
            simp only [hmsg, HRes.mk.injEq, true_and] at h
            obtain ⟨h1, h2⟩ := h
            subst h1
            refine ⟨rfl, rfl, rfl, rfl, rfl, rfl, rfl, rfl, rfl,
              (s2.stor.log ++ m.entries).length + s2.stor.compacted_idx, ?_,
              Or.inl ⟨j, pm0, am, rfl, rfl, hoj, hmsg, rfl⟩⟩
            simp only [InternalStorage.get_log_len, List.length_append]
            omega
      · rw [if_neg hr] at h
        simp only [HRes.mk.injEq, true_and] at h
        obtain ⟨h1, h2⟩ := h
        subst h1
        refine ⟨rfl, rfl, rfl, rfl, rfl, rfl, rfl, rfl, rfl,
          (s2.stor.log ++ m.entries).length + s2.stor.compacted_idx, ?_,
          Or.inr ⟨rfl, rfl, Or.inr ⟨r, j, rfl, hr⟩⟩⟩
        simp only [InternalStorage.get_log_len, List.length_append]
        omega
  · rw [if_neg hdec] at h
    unfold SequencePaxos.accept_entries at h
    simp only [InternalStorage.append_entries, bs_append_entries_noFaults] at h
    cases hmeta : s2.latest_accepted_meta with
    | none =>
      simp only [hmeta, HRes.mk.injEq, true_and] at h
      obtain ⟨h1, h2⟩ := h
      subst h1
      refine ⟨rfl, rfl, rfl, rfl, rfl, rfl, rfl, rfl, rfl,
        (s2.stor.log ++ m.entries).length + s2.stor.compacted_idx, ?_, Or.inr ⟨rfl, rfl, Or.inl rfl⟩⟩
      simp only [InternalStorage.get_log_len, List.length_append]
      omega
    | some rj =>
      obtain ⟨r, j⟩ := rj
      simp only [hmeta] at h
      by_cases hr : r = m.n
      · subst hr
        rw [if_pos rfl] at h
        cases hoj : s2.outgoing[j]? with
        | none =>
          simp only [hoj, HRes.mk.injEq, Bool.false_eq_true, false_and] at h
        | some pm0 =>
          simp only [hoj] at h
          cases hmsg : pm0.msg with
          | promise pp =>
            simp only [hmsg, HRes.mk.injEq, Bool.false_eq_true, false_and] at h
          | accepted_stopsign nn =>
            simp only [hmsg, HRes.mk.injEq, Bool.false_eq_true, false_and] at h
          | accepted am =>
            simp only [hmsg, HRes.mk.injEq, true_and] at h
            obtain ⟨h1, h2⟩ := h
            subst h1
            refine ⟨rfl, rfl, rfl, rfl, rfl, rfl, rfl, rfl, rfl,
              (s2.stor.log ++ m.entries).length + s2.stor.compacted_idx, ?_,
              Or.inl ⟨j, pm0, am, rfl, rfl, hoj, hmsg, rfl⟩⟩
            simp only [InternalStorage.get_log_len, List.length_append]
            omega
      · rw [if_neg hr] at h
        simp only [HRes.mk.injEq, true_and] at h
        obtain ⟨h1, h2⟩ := h
        subst h1
        refine ⟨rfl, rfl, rfl, rfl, rfl, rfl, rfl, rfl, rfl,
          (s2.stor.log ++ m.entries).length + s2.stor.compacted_idx, ?_,
          Or.inr ⟨rfl, rfl, Or.inr ⟨r, j, rfl, hr⟩⟩⟩
        simp only [InternalStorage.get_log_len, List.length_append]
        omega

theorem acceptdecide_spec (m : AcceptDecideMsg) (s s' : RState) (tr : List Ev)
    (h : SequencePaxos.handle_acceptdecide noFaults m s = ⟨true, s', tr⟩) :
    s' = s ∨
    (s.stor.promise = m.n ∧ s.role = Role.follower ∧ s.phase = Phase.accept ∧
     s'.role = Role.follower ∧ s'.phase = Phase.accept ∧
     s'.stor.promise = s.stor.promise ∧
     (s'.stor.accepted_round = m.n ∨ s'.stor.accepted_round = s.stor.accepted_round) ∧
     InternalStorage.get_log_len s'.stor =
       InternalStorage.get_log_len s.stor + m.entries.length ∧
     ∃ aidx, aidx = InternalStorage.get_log_len s'.stor ∧
       ((∃ j pm0 am,
           s.latest_accepted_meta = some (m.n, j) ∧
           s'.latest_accepted_meta = some (m.n, j) ∧
           s.outgoing[j]? = some pm0 ∧ pm0.msg = PaxosMsg.accepted am ∧
           s'.outgoing = s.outgoing.set j
             ⟨pm0.src, pm0.dst, PaxosMsg.accepted ⟨am.n, aidx⟩⟩) ∨
        (s'.latest_accepted_meta = some (m.n, s.outgoing.length) ∧
         s'.outgoing = s.outgoing ++
           [⟨s.pid, s.leader.pid, PaxosMsg.accepted ⟨m.n, aidx⟩⟩] ∧
         (s.latest_accepted_meta = none ∨
          ∃ r j, s.latest_accepted_meta = some (r, j) ∧ r ≠ m.n)))) := by
  unfold SequencePaxos.handle_acceptdecide at h
  by_cases hg : s.stor.promise = m.n ∧ s.role = Role.follower ∧ s.phase = Phase.accept
  case neg =>
    left
    rw [if_neg hg] at h
    cases h
    rfl
  case pos =>
    rw [if_pos hg] at h
    cases hst : check_msg_status s.current_seq_num m.seq_num with
    | dropped_preceding =>
      left
      simp only [hst, SequencePaxos.reconnected] at h
      cases h
      rfl
    | outdated =>
      left
      simp only [hst] at h
      cases h
      rfl
    | first =>
      right
      simp only [hst, bs_set_accepted_round_noFaults,
        SequencePaxos.forward_pending_proposals] at h
      obtain ⟨hpid, hld, hrole, hph, hseq, hpr, har, hlog, hcomp, aidx, haidx, hdisj⟩ :=
        acceptdecide_core_spec m _ _ _ s' _ tr h
      refine ⟨hg.1, hg.2.1, hg.2.2, hrole.trans hg.2.1, hph.trans hg.2.2, hpr, Or.inl har, ?_,
        aidx, haidx, hdisj⟩
      have hlog' : s'.stor.log = s.stor.log ++ m.entries := hlog
      have hcomp' : s'.stor.compacted_idx = s.stor.compacted_idx := hcomp
      unfold InternalStorage.get_log_len
      rw [hlog', hcomp', List.length_append]
      omega
    | expected =>
      right
      simp only [hst] at h
      obtain ⟨hpid, hld, hrole, hph, hseq, hpr, har, hlog, hcomp, aidx, haidx, hdisj⟩ :=
        acceptdecide_core_spec m _ _ _ s' _ tr h
      refine ⟨hg.1, hg.2.1, hg.2.2, hrole.trans hg.2.1, hph.trans hg.2.2, hpr, Or.inr har, ?_,
        aidx, haidx, hdisj⟩
      have hlog' : s'.stor.log = s.stor.log ++ m.entries := hlog
      have hcomp' : s'.stor.compacted_idx = s.stor.compacted_idx := hcomp
      unfold InternalStorage.get_log_len
      rw [hlog', hcomp', List.length_append]
      omega

theorem accept_ss_spec (m : AcceptStopSignMsg) (s s' : RState) (tr : List Ev)
    (h : SequencePaxos.handle_accept_stopsign noFaults m s = ⟨true, s', tr⟩) :
    s' = s ∨
    (s.stor.promise = m.n ∧ s.role = Role.follower ∧ s.phase = Phase.accept ∧
     s'.role = s.role ∧ s'.phase = s.phase ∧
     s'.stor.promise = s.stor.promise ∧
     (s'.stor.accepted_round = m.n ∨ s'.stor.accepted_round = s.stor.accepted_round) ∧
     s'.stor.log = s.stor.log ∧ s'.stor.compacted_idx = s.stor.compacted_idx ∧
     s'.latest_accepted_meta = s.latest_accepted_meta ∧
     s'.outgoing = s.outgoing ++ [⟨s.pid, s.leader.pid, PaxosMsg.accepted_stopsign m.n⟩]) := by
  unfold SequencePaxos.handle_accept_stopsign at h
  by_cases hg : s.stor.promise = m.n ∧ s.role = Role.follower ∧ s.phase = Phase.accept
  case neg =>
    left
    rw [if_neg hg] at h
    cases h
    rfl
  case pos =>
    rw [if_pos hg] at h
    cases hst : check_msg_status s.current_seq_num m.seq_num with
    | dropped_preceding =>
      left
      simp only [hst, SequencePaxos.reconnected] at h
      cases h
      rfl
    | outdated =>
      left
      simp only [hst] at h
      cases h
      rfl
    | first =>
      right
      simp only [hst, bs_set_accepted_round_noFaults, SequencePaxos.forward_pending_proposals,
        SequencePaxos.accept_ss_core, SequencePaxos.accept_stopsign,
        bs_set_stopsign_noFaults, HRes.mk.injEq, true_and] at h
      obtain ⟨h1, h2⟩ := h
      subst h1
      exact ⟨hg.1, hg.2.1, hg.2.2, rfl, rfl, rfl, Or.inl rfl, rfl, rfl, rfl, rfl⟩
    | expected =>
      right
      simp only [hst, SequencePaxos.accept_ss_core, SequencePaxos.accept_stopsign,
        bs_set_stopsign_noFaults, HRes.mk.injEq, true_and] at h
      obtain ⟨h1, h2⟩ := h
      subst h1
      exact ⟨hg.1, hg.2.1, hg.2.2, rfl, rfl, rfl, Or.inr rfl, rfl, rfl, rfl, rfl⟩

theorem decide_spec (m : DecideMsg) (s s' : RState) (tr : List Ev)
    (h : SequencePaxos.handle_decide noFaults m s = ⟨true, s', tr⟩) :
    s' = s ∨
    (s'.outgoing = s.outgoing ∧ s'.latest_accepted_meta = s.latest_accepted_meta ∧
     s'.phase = s.phase ∧ s'.role = s.role ∧
     s'.stor.promise = s.stor.promise ∧ s'.stor.accepted_round = s.stor.accepted_round ∧
     s'.stor.log = s.stor.log ∧ s'.stor.compacted_idx = s.stor.compacted_idx) := by
  unfold SequencePaxos.handle_decide at h
  by_cases hg : s.stor.promise = m.n ∧ s.phase = Phase.accept
  case neg =>
    left
    rw [if_neg hg] at h
    cases h
    rfl
  case pos =>
    rw [if_pos hg] at h
    cases hst : check_msg_status s.current_seq_num m.seq_num with
    | dropped_preceding =>
      left
      simp only [hst, SequencePaxos.reconnected] at h
      cases h
      rfl
    | outdated =>
      left
      simp only [hst] at h
      cases h
      rfl
    | first =>
      left
      simp only [hst] at h
      cases h
      rfl
    | expected =>
      right
      simp only [hst, bs_set_decided_idx_noFaults, HRes.mk.injEq, true_and] at h
      obtain ⟨h1, h2⟩ := h
      subst h1
      exact ⟨rfl, rfl, rfl, rfl, rfl, rfl, rfl, rfl⟩

theorem decide_ss_spec (m : DecideStopSignMsg) (s s' : RState) (tr : List Ev)
    (h : SequencePaxos.handle_decide_stopsign noFaults m s = ⟨true, s', tr⟩) :
    s' = s ∨
    (s'.outgoing = s.outgoing ∧ s'.latest_accepted_meta = s.latest_accepted_meta ∧
     s'.phase = s.phase ∧ s'.role = s.role ∧
     s'.stor.promise = s.stor.promise ∧ s'.stor.accepted_round = s.stor.accepted_round ∧
     s'.stor.log = s.stor.log ∧ s'.stor.compacted_idx = s.stor.compacted_idx) := by
  unfold SequencePaxos.handle_decide_stopsign at h
  by_cases hg : s.stor.promise = m.n ∧ s.phase = Phase.accept
  case neg =>
    left
    rw [if_neg hg] at h
    cases h
    rfl
  case pos =>
    rw [if_pos hg] at h
    cases hst : check_msg_status s.current_seq_num m.seq_num with
    | dropped_preceding =>
      left
      simp only [hst, SequencePaxos.reconnected] at h
      cases h
      rfl
    | outdated =>
      left
      simp only [hst] at h
      cases h
      rfl
    | first =>
      left
      simp only [hst] at h
      cases h
      rfl
    | expected =>
      simp only [hst] at h
      cases hsse : s.stor.stopsign with
      | none =>
        simp only [hsse, HRes.mk.injEq, Bool.false_eq_true, false_and] at h
      | some entry =>
        right
        simp only [hsse, bs_set_decided_idx_noFaults, bs_set_stopsign_noFaults,
          HRes.mk.injEq, true_and] at h
        obtain ⟨h1, h2⟩ := h
        subst h1
        exact ⟨rfl, rfl, rfl, rfl, rfl, rfl, rfl, rfl⟩

theorem accAt_lt_length {l : List PaxosMessage} {i : Nat} {n : Ballot} {a : Nat}
    (h : accAt l i n a) : i < l.length := by
  obtain ⟨pm, hpm, _⟩ := h
  exact (List.getElem?_eq_some.mp hpm).1

theorem accAt_functional {l : List PaxosMessage} {i : Nat} {n : Ballot} {x y : Nat}
    (hx : accAt l i n x) (hy : accAt l i n y) : x = y := by
  obtain ⟨pm, hpm, hmx⟩ := hx
  obtain ⟨pm2, hpm2, hmy⟩ := hy
  rw [hpm] at hpm2
  cases hpm2
  rw [hmx] at hmy
  cases hmy
  rfl

theorem accAt_cons_nonacc (msg : PaxosMessage) (rest : List PaxosMessage)
    (hm : ∀ pm ∈ rest, ∀ am, pm.msg ≠ PaxosMsg.accepted am) (k : Nat) (n : Ballot) (a : Nat) :
    accAt (msg :: rest) k n a ↔ k = 0 ∧ msg.msg = PaxosMsg.accepted ⟨n, a⟩ := by
  unfold accAt
  cases k with
  | zero => simp
  | succ k0 =>
    simp only [List.getElem?_cons_succ]
    constructor
    · rintro ⟨pm, hpm, hmsg⟩
      exact absurd hmsg (hm pm (List.getElem?_mem hpm) _)
    · rintro ⟨h0, _⟩
      cases h0

theorem accAt_append_nonacc (l msgs : List PaxosMessage)
    (hm : ∀ pm ∈ msgs, ∀ am, pm.msg ≠ PaxosMsg.accepted am) (i : Nat) (n : Ballot) (a : Nat) :
    accAt (l ++ msgs) i n a ↔ accAt l i n a := by
  rw [accAt_append_iff]
  constructor
  · rintro (⟨_, h⟩ | ⟨_, pm, hpm, hmsg⟩)
    · exact h
    · exact absurd hmsg (hm pm (List.getElem?_mem hpm) _)
  · intro h
    exact Or.inl ⟨accAt_lt_length h, h⟩

theorem accAt_append_acc_rest (l : List PaxosMessage) (msg : PaxosMessage)
    (rest : List PaxosMessage)
    (hm : ∀ pm ∈ rest, ∀ am, pm.msg ≠ PaxosMsg.accepted am) (i : Nat) (n : Ballot) (a : Nat) :
    accAt (l ++ (msg :: rest)) i n a ↔
      accAt l i n a ∨ (i = l.length ∧ msg.msg = PaxosMsg.accepted ⟨n, a⟩) := by
  rw [accAt_append_iff]
  constructor
  · rintro (⟨_, h⟩ | ⟨hle, h⟩)
    · exact Or.inl h
    · rw [accAt_cons_nonacc msg rest hm] at h
      exact Or.inr ⟨by omega, h.2⟩
  · rintro (h | ⟨hi, hmsg⟩)
    · exact Or.inl ⟨accAt_lt_length h, h⟩
    · subst hi
      refine Or.inr ⟨Nat.le_refl _, ?_⟩
      rw [Nat.sub_self]
      exact (accAt_cons_nonacc msg rest hm 0 n a).mpr ⟨rfl, hmsg⟩

theorem inv_of_frame (s s' : RState)
    (hout : s'.outgoing = s.outgoing)
    (hmeta : s'.latest_accepted_meta = s.latest_accepted_meta)
    (hphase : s'.phase = s.phase)
    (hpr : s'.stor.promise = s.stor.promise)
    (har : s'.stor.accepted_round = s.stor.accepted_round)
    (hlog : s'.stor.log = s.stor.log)
    (hcomp : s'.stor.compacted_idx = s.stor.compacted_idx)
    (hInv : FollowerInv s) : FollowerInv s' := by
  obtain ⟨h1, h2, h3, h4, h5, h6⟩ := hInv
  refine ⟨?_, ?_, ?_, ?_, ?_, ?_⟩
  · unfold InvPromise at *
    rw [hpr, har]
    exact h1
  · unfold AtMostOneAccepted at *
    rw [hout]
    exact h2
  · unfold InvRound at *
    rw [hout, hpr]
    exact h3
  · unfold InvPrep at *
    rw [hout, hpr, hphase]
    exact h4
  · unfold InvAccMeta at *
    rw [hout, hpr, hphase, hmeta]
    exact h5
  · unfold InvIdx at *
    unfold InternalStorage.get_log_len
    rw [hout, hpr, hphase, hmeta, hlog, hcomp]
    exact h6

theorem inv_init (pid : Nat) : FollowerInv (init_state pid) := by
  refine ⟨Or.inr rfl, ?_, ?_, ?_, ?_, ?_⟩
  · intro i j n a b ha hb
    obtain ⟨pm, hpm, _⟩ := ha
    simp [init_state] at hpm
  · intro i n a ha
    obtain ⟨pm, hpm, _⟩ := ha
    simp [init_state] at hpm
  · intro _ i a ha
    obtain ⟨pm, hpm, _⟩ := ha
    simp [init_state] at hpm
  · intro h
    simp [init_state] at h
  · intro i pm am _ hmeta
    simp [init_state] at hmeta

theorem inv_prepare (u : Bool) (p : PrepareMsg) (sender : Nat) (s s' : RState) (tr : List Ev)
    (hInv : FollowerInv s)
    (h : SequencePaxos.handle_prepare noFaults u p sender s = ⟨true, s', tr⟩) :
    FollowerInv s' := by
  rcases handle_prepare_spec u p sender s with ⟨hn, he⟩ | ⟨hy, he⟩
  · rw [he] at h
    cases h
    exact hInv
  · rw [he] at h
    obtain ⟨h1, h2, h3⟩ := (HRes.mk.injEq _ _ _ _ _ _).mp h
    have hout : s'.outgoing = s.outgoing ++
        [⟨s.pid, sender, PaxosMsg.promise (SequencePaxos.prepare_promise u p s.stor)⟩] := by
      rw [← h2]
    have hphase : s'.phase = Phase.prepare := by rw [← h2]
    have hpr : s'.stor.promise = p.n := by rw [← h2]
    have har : s'.stor.accepted_round = s.stor.accepted_round := by rw [← h2]
    obtain ⟨i1, i2, i3, i4, i5, i6⟩ := hInv
    have hle : Ballot.le s.stor.promise p.n := by
      rcases hy with hlt | ⟨heq, _⟩
      · exact Or.inl hlt
      · exact Or.inr heq
    have hnonacc : ∀ pm ∈ [(⟨s.pid, sender,
        PaxosMsg.promise (SequencePaxos.prepare_promise u p s.stor)⟩ : PaxosMessage)],
        ∀ am, pm.msg ≠ PaxosMsg.accepted am := by
      intro pm hpm am
      simp at hpm
      subst hpm
      simp
    refine ⟨?_, ?_, ?_, ?_, ?_, ?_⟩
    · unfold InvPromise
      rw [hpr, har]
      exact Ballot.le_trans i1 hle
    · intro i j n a b ha hb
      rw [hout, accAt_append_nonacc _ _ hnonacc] at ha hb
      exact i2 i j n a b ha hb
    · intro i n a ha
      rw [hout, accAt_append_nonacc _ _ hnonacc] at ha
      rw [hpr]
      exact Ballot.le_trans (i3 i n a ha) hle
    · intro _ i a ha
      rw [hout, accAt_append_nonacc _ _ hnonacc, hpr] at ha
      have hround := i3 i _ a ha
      rcases hy with hlt | ⟨heq, hrec⟩
      · exact absurd rfl (Ballot.ne_of_le_of_lt hround hlt)
      · exact i4 (Or.inr hrec) i a (by rw [heq]; exact ha)
    · intro hph
      rw [hphase] at hph
      cases hph
    · intro i pm am hph
      rw [hphase] at hph
      cases hph

theorem inv_acceptsync (m : AcceptSyncMsg) (sender : Nat) (s s' : RState) (tr : List Ev)
    (hInv : FollowerInv s)
    (h : SequencePaxos.handle_acceptsync noFaults m sender s = ⟨true, s', tr⟩) :
    FollowerInv s' := by
  rcases acceptsync_spec m sender s s' tr h with heq | hspec
  · rw [heq]
    exact hInv
  · obtain ⟨hgp, hgr, hgf, hrole, hphase, hpr, har, hmeta, aidx, rest, hout, hrest, haidx⟩ := hspec
    obtain ⟨i1, i2, i3, i4, i5, i6⟩ := hInv
    have hnoacc : ∀ i a, ¬ accAt s.outgoing i s.stor.promise a := i4 (Or.inl hgf)
    refine ⟨?_, ?_, ?_, ?_, ?_, ?_⟩
    · unfold InvPromise
      rw [hpr, har, hgp]
      exact Ballot.le_refl m.n
    · intro i j n a b ha hb
      rw [hout, accAt_append_acc_rest _ _ _ hrest] at ha hb
      rcases ha with ha | ⟨hi, hma⟩ <;> rcases hb with hb | ⟨hj, hmb⟩
      · exact i2 i j n a b ha hb
      · injection hmb with h1
        injection h1 with hn ha2
        subst hn
        rw [← hgp] at ha
        exact absurd ha (hnoacc i a)
      · injection hma with h1
        injection h1 with hn ha2
        subst hn
        rw [← hgp] at hb
        exact absurd hb (hnoacc j b)
      · rw [hi, hj]
    · intro i n a ha
      rw [hout, accAt_append_acc_rest _ _ _ hrest] at ha
      rw [hpr]
      rcases ha with ha | ⟨hi, hma⟩
      · exact i3 i n a ha
      · injection hma with h1
        injection h1 with hn ha2
        subst hn
        rw [hgp]
        exact Ballot.le_refl m.n
    · intro hph
      rw [hphase] at hph
      rcases hph with hph | hph <;> cases hph
    · intro hph i a ha
      rw [hout, accAt_append_acc_rest _ _ _ hrest] at ha
      rw [hpr] at ha
      rcases ha with ha | ⟨hi, hma⟩
      · exact absurd ha (hnoacc i a)
      · rw [hmeta, hi, hpr, hgp]
    · intro i pm am hph hm2 hpm hmam
      rw [hmeta, hpr, hgp] at hm2
      have h' := Option.some.inj hm2
      have hi : s.outgoing.length = i := congrArg Prod.snd h'
      subst hi
      rw [hout, List.getElem?_append_right (Nat.le_refl _), Nat.sub_self] at hpm
      simp only [List.getElem?_cons_zero] at hpm
      cases hpm
      simp only at hmam
      injection hmam with h2
      subst h2
      exact Nat.le_of_eq haidx

theorem inv_acceptdecide (m : AcceptDecideMsg) (s s' : RState) (tr : List Ev)
    (hInv : FollowerInv s)
    (h : SequencePaxos.handle_acceptdecide noFaults m s = ⟨true, s', tr⟩) :
    FollowerInv s' := by
  rcases acceptdecide_spec m s s' tr h with heq | hspec
  · rw [heq]
    exact hInv
  · obtain ⟨hgp, hgr, hgf, hrole, hphase, hpr, harOr, hvlen, aidx, haidx, hdisj⟩ := hspec
    obtain ⟨i1, i2, i3, i4, i5, i6⟩ := hInv
    have hInvPromise : InvPromise s' := by
      unfold InvPromise
      rcases harOr with har | har
      · rw [har, hpr, hgp]
        exact Ballot.le_refl m.n
      · rw [har, hpr]
        exact i1
    rcases hdisj with ⟨j, pm0, am, hmetaS, hmeta2, hoj, hpm0, hout⟩ |
      ⟨hmeta2, hout, hside⟩
    · -- coalescing into the queued Accepted at index j
      have hjlen : j < s.outgoing.length := (List.getElem?_eq_some.mp hoj).1
      have haj : accAt s.outgoing j am.n am.accepted_idx := ⟨pm0, hoj, hpm0⟩
      refine ⟨hInvPromise, ?_, ?_, ?_, ?_, ?_⟩
      · intro i k n a b ha hb
        rw [hout, accAt_set_iff] at ha hb
        rcases ha with ⟨hji, _, hma⟩ | ⟨hji, ha⟩ <;>
          rcases hb with ⟨hjk, _, hmb⟩ | ⟨hjk, hb⟩
        · rw [← hji, ← hjk]
        · injection hma with h1
          injection h1 with hn ha2
          subst hn
          have hkj := i2 k j am.n b am.accepted_idx hb haj
          exact absurd hkj.symm hjk
        · injection hmb with h1
          injection h1 with hn hb2
          subst hn
          have hij := i2 i j am.n a am.accepted_idx ha haj
          exact absurd hij.symm hji
        · exact i2 i k n a b ha hb
      · intro i n a ha
        rw [hout, accAt_set_iff] at ha
        rw [hpr]
        rcases ha with ⟨hji, _, hma⟩ | ⟨_, ha⟩
        · injection hma with h1
          injection h1 with hn ha2
          subst hn
          exact i3 j am.n am.accepted_idx haj
        · exact i3 i n a ha
      · intro hph
        rw [hphase] at hph
        rcases hph with hph | hph <;> cases hph
      · intro hph i a ha
        rw [hout, accAt_set_iff] at ha
        rw [hpr] at ha
        rcases ha with ⟨hji, _, _⟩ | ⟨hji, ha⟩
        · rw [hmeta2, ← hji, hpr, hgp]
        · have hmi := i5 hgf i a ha
          rw [hgp] at hmi
          rw [hmetaS] at hmi
          have : j = i := congrArg Prod.snd (Option.some.inj hmi)
          exact absurd this hji
      · intro i pm am2 hph hm2 hpm hmam2
        rw [hmeta2, hpr, hgp] at hm2
        have hij : j = i := congrArg Prod.snd (Option.some.inj hm2)
        subst hij
        rw [hout, List.getElem?_set] at hpm
        rw [if_pos rfl, if_pos hjlen] at hpm
        cases Option.some.inj hpm
        simp only at hmam2
        injection hmam2 with h2
        subst h2
        exact Nat.le_of_eq haidx
    · -- pushing a fresh Accepted at the end
      have hnoacc : ∀ i a, ¬ accAt s.outgoing i s.stor.promise a := by
        intro i a ha
        have hmi := i5 hgf i a ha
        rw [hgp] at hmi
        rcases hside with hnone | ⟨r, j, hsome, hrne⟩
        · rw [hnone] at hmi
          cases hmi
        · rw [hsome] at hmi
          exact hrne (congrArg Prod.fst (Option.some.inj hmi))
      have hrest : ∀ pm ∈ ([] : List PaxosMessage), ∀ am, pm.msg ≠ PaxosMsg.accepted am := by
        intro pm hpm
        cases hpm
      refine ⟨hInvPromise, ?_, ?_, ?_, ?_, ?_⟩
      · intro i k n a b ha hb
        rw [hout, accAt_append_acc_rest _ _ _ hrest] at ha hb
        rcases ha with ha | ⟨hi, hma⟩ <;> rcases hb with hb | ⟨hk, hmb⟩
        · exact i2 i k n a b ha hb
        · injection hmb with h1
          injection h1 with hn hb2
          subst hn
          rw [← hgp] at ha
          exact absurd ha (hnoacc i a)
        · injection hma with h1
          injection h1 with hn ha2
          subst hn
          rw [← hgp] at hb
          exact absurd hb (hnoacc k b)
        · rw [hi, hk]
      · intro i n a ha
        rw [hout, accAt_append_acc_rest _ _ _ hrest] at ha
        rw [hpr]
        rcases ha with ha | ⟨hi, hma⟩
        · exact i3 i n a ha
        · injection hma with h1
          injection h1 with hn ha2
          subst hn
          rw [hgp]
          exact Ballot.le_refl m.n
      · intro hph
        rw [hphase] at hph
        rcases hph with hph | hph <;> cases hph
      · intro hph i a ha
        rw [hout, accAt_append_acc_rest _ _ _ hrest] at ha
        rw [hpr] at ha
        rcases ha with ha | ⟨hi, hma⟩
        · exact absurd ha (hnoacc i a)
        · rw [hmeta2, hi, hpr, hgp]
      · intro i pm am2 hph hm2 hpm hmam2
        rw [hmeta2, hpr, hgp] at hm2
        have hi : s.outgoing.length = i := congrArg Prod.snd (Option.some.inj hm2)
        subst hi
        rw [hout, List.getElem?_append_right (Nat.le_refl _), Nat.sub_self] at hpm
        simp only [List.getElem?_cons_zero] at hpm
        cases hpm
        simp only at hmam2
        injection hmam2 with h2
        subst h2
        exact Nat.le_of_eq haidx

theorem inv_accept_ss (m : AcceptStopSignMsg) (s s' : RState) (tr : List Ev)
    (hInv : FollowerInv s)
    (h : SequencePaxos.handle_accept_stopsign noFaults m s = ⟨true, s', tr⟩) :
    FollowerInv s' := by
  rcases accept_ss_spec m s s' tr h with heq | hspec
  · rw [heq]
    exact hInv
  · obtain ⟨hgp, hgr, hgf, hrole, hphase, hpr, harOr, hlog, hcomp, hmeta, hout⟩ := hspec
    obtain ⟨i1, i2, i3, i4, i5, i6⟩ := hInv
    have hnonacc : ∀ pm ∈ [(⟨s.pid, s.leader.pid,
        PaxosMsg.accepted_stopsign m.n⟩ : PaxosMessage)],
        ∀ am, pm.msg ≠ PaxosMsg.accepted am := by
      intro pm hpm am
      simp at hpm
      subst hpm
      simp
    have hvlen : InternalStorage.get_log_len s'.stor = InternalStorage.get_log_len s.stor := by
      unfold InternalStorage.get_log_len
      rw [hlog, hcomp]
    refine ⟨?_, ?_, ?_, ?_, ?_, ?_⟩
    · unfold InvPromise
      rcases harOr with har | har
      · rw [har, hpr, hgp]
        exact Ballot.le_refl m.n
      · rw [har, hpr]
        exact i1
    · intro i j n a b ha hb
      rw [hout, accAt_append_nonacc _ _ hnonacc] at ha hb
      exact i2 i j n a b ha hb
    · intro i n a ha
      rw [hout, accAt_append_nonacc _ _ hnonacc] at ha
      rw [hpr]
      exact i3 i n a ha
    · intro hph
      rw [hphase, hgf] at hph
      rcases hph with hph | hph <;> cases hph
    · intro hph i a ha
      rw [hout, accAt_append_nonacc _ _ hnonacc] at ha
      rw [hpr] at ha
      rw [hmeta, hpr]
      exact i5 hgf i a ha
    · intro i pm am hph hm2 hpm hmam
      rw [hmeta, hpr] at hm2
      rw [hout, List.getElem?_append] at hpm
      rw [hvlen]
      by_cases hi : i < s.outgoing.length
      · rw [if_pos hi] at hpm
        exact i6 i pm am hgf hm2 hpm hmam
      · rw [if_neg hi] at hpm
        cases hk : i - s.outgoing.length with
        | zero =>
          rw [hk] at hpm
          simp only [List.getElem?_cons_zero] at hpm
          cases hpm
          simp only at hmam
          cases hmam
        | succ k =>
          rw [hk] at hpm
          simp only [List.getElem?_cons_succ] at hpm
          simp at hpm

theorem inv_decide (m : DecideMsg) (s s' : RState) (tr : List Ev)
    (hInv : FollowerInv s)
    (h : SequencePaxos.handle_decide noFaults m s = ⟨true, s', tr⟩) :
    FollowerInv s' := by
  rcases decide_spec m s s' tr h with heq | hspec
  · rw [heq]
    exact hInv
  · obtain ⟨hout, hmeta, hphase, _, hpr, har, hlog, hcomp⟩ := hspec
    exact inv_of_frame s s' hout hmeta hphase hpr har hlog hcomp hInv

theorem inv_decide_ss (m : DecideStopSignMsg) (s s' : RState) (tr : List Ev)
    (hInv : FollowerInv s)
    (h : SequencePaxos.handle_decide_stopsign noFaults m s = ⟨true, s', tr⟩) :
    FollowerInv s' := by
  rcases decide_ss_spec m s s' tr h with heq | hspec
  · rw [heq]
    exact hInv
  · obtain ⟨hout, hmeta, hphase, _, hpr, har, hlog, hcomp⟩ := hspec
    exact inv_of_frame s s' hout hmeta hphase hpr har hlog hcomp hInv

theorem inv_step (u : Bool) (s s' : RState) (hInv : FollowerInv s) (hs : Step u s s') :
    FollowerInv s' := by
  cases hs with
  | prepare p sender s s' tr h => exact inv_prepare u p sender s s' tr hInv h
  | acceptsync m sender s s' tr h => exact inv_acceptsync m sender s s' tr hInv h
  | acceptdecide m s s' tr h => exact inv_acceptdecide m s s' tr hInv h
  | accept_ss m s s' tr h => exact inv_accept_ss m s s' tr hInv h
  | decide m s s' tr h => exact inv_decide m s s' tr hInv h
  | decide_ss m s s' tr h => exact inv_decide_ss m s s' tr hInv h
  | propose e s => exact inv_of_frame s _ rfl rfl rfl rfl rfl rfl rfl hInv

theorem reachable_inv (u : Bool) (s : RState) (h : Reachable u s) : FollowerInv s := by
  induction h with
  | init pid => exact inv_init pid
  | step s s' hs hstep ih => exact inv_step u s s' ih hstep

theorem step_accepted_mono (u : Bool) (s s' : RState) (hInv : FollowerInv s)
    (hs : Step u s s') (i : Nat) (n : Ballot) (x y : Nat)
    (hx : accAt s.outgoing i n x) (hy : accAt s'.outgoing i n y) : x ≤ y := by
  obtain ⟨_, _, _, _, _, i6⟩ := hInv
  cases hs with
  | prepare p sender s s' tr h =>
    rcases handle_prepare_spec u p sender s with ⟨_, he⟩ | ⟨_, he⟩
    · rw [he] at h
      obtain ⟨-, h2, -⟩ := (HRes.mk.injEq _ _ _ _ _ _).mp h
      rw [← h2] at hy
      exact Nat.le_of_eq (accAt_functional hx hy)
    · rw [he] at h
      obtain ⟨-, h2, -⟩ := (HRes.mk.injEq _ _ _ _ _ _).mp h
      have hout : s'.outgoing = s.outgoing ++
          [⟨s.pid, sender, PaxosMsg.promise (SequencePaxos.prepare_promise u p s.stor)⟩] := by
        rw [← h2]
      rw [hout, accAt_append_nonacc] at hy
      · exact Nat.le_of_eq (accAt_functional hx hy)
      · intro pm hpm am
        simp at hpm
        subst hpm
        simp
  | acceptsync m sender s s' tr h =>
    rcases acceptsync_spec m sender s s' tr h with heq | hspec
    · rw [heq] at hy
      exact Nat.le_of_eq (accAt_functional hx hy)
    · obtain ⟨_, _, _, _, _, _, _, _, aidx, rest, hout, _, _⟩ := hspec
      rw [hout, accAt_append_iff] at hy
      rcases hy with ⟨_, hy⟩ | ⟨hle, _⟩
      · exact Nat.le_of_eq (accAt_functional hx hy)
      · exact absurd (accAt_lt_length hx) (by omega)
  | acceptdecide m s s' tr h =>
    rcases acceptdecide_spec m s s' tr h with heq | hspec
    · rw [heq] at hy
      exact Nat.le_of_eq (accAt_functional hx hy)
    · obtain ⟨hgp, _, hgf, _, _, _, _, hvlen, aidx, haidx, hco⟩ := hspec
      rcases hco with ⟨j, pm0, am, hmeta, _, hpm0, hpm0m, hout⟩ | ⟨_, hout, _⟩
      · rw [hout, accAt_set_iff] at hy
        rcases hy with ⟨hji, _, hmsg⟩ | ⟨_, hy⟩
        · subst hji
          obtain ⟨pmx, hpmx, hmx⟩ := hx
          rw [hpmx] at hpm0
          cases Option.some.inj hpm0
          rw [hmx] at hpm0m
          injection hpm0m with ham
          subst ham
          simp only at hmsg
          injection hmsg with hmsg2
          injection hmsg2 with _ hidx
          have hbound : x ≤ InternalStorage.get_log_len s.stor := by
            have hm2 : s.latest_accepted_meta = some (s.stor.promise, j) := by
              rw [hgp]
              exact hmeta
            exact i6 j pm0 ⟨n, x⟩ hgf hm2 hpmx hmx
          omega
        · exact Nat.le_of_eq (accAt_functional hx hy)
      · rw [hout, accAt_append_iff] at hy
        rcases hy with ⟨_, hy⟩ | ⟨hle, _⟩
        · exact Nat.le_of_eq (accAt_functional hx hy)
        · exact absurd (accAt_lt_length hx) (by omega)
  | accept_ss m s s' tr h =>
    rcases accept_ss_spec m s s' tr h with heq | hspec
    · rw [heq] at hy
      exact Nat.le_of_eq (accAt_functional hx hy)
    · obtain ⟨_, _, _, _, _, _, _, _, _, _, hout⟩ := hspec
      rw [hout, accAt_append_nonacc] at hy
      · exact Nat.le_of_eq (accAt_functional hx hy)
      · intro pm hpm am
        simp at hpm
        subst hpm
        simp
  | decide m s s' tr h =>
    rcases decide_spec m s s' tr h with heq | hspec
    · rw [heq] at hy
      exact Nat.le_of_eq (accAt_functional hx hy)
    · rw [hspec.1] at hy
      exact Nat.le_of_eq (accAt_functional hx hy)
  | decide_ss m s s' tr h =>
    rcases decide_ss_spec m s s' tr h with heq | hspec
    · rw [heq] at hy
      exact Nat.le_of_eq (accAt_functional hx hy)
    · rw [hspec.1] at hy
      exact Nat.le_of_eq (accAt_functional hx hy)
  | propose e s =>
    exact Nat.le_of_eq (accAt_functional hx hy)

/-- C1: in every reachable follower state the promised round dominates the
accepted round: accepted_round <= promise. -/
theorem c1_promise_dominates (u : Bool) (s : RState) (h : Reachable u s) :
    Ballot.le s.stor.accepted_round s.stor.promise :=
  (reachable_inv u s h).1

theorem c1_witness :
    Ballot.le (init_state 0).stor.accepted_round (init_state 0).stor.promise :=
  c1_promise_dominates true (init_state 0) (Reachable.init 0)

/-- C9: in every reachable follower state the outgoing queue holds at most one
Accepted message per round, and across any handler step the accepted_idx of a
queued Accepted message at a fixed position and round never decreases. -/
theorem c9_accepted_coalescing (u : Bool) (s : RState) (h : Reachable u s) :
    AtMostOneAccepted s ∧
    ∀ s' i n x y, Step u s s' → accAt s.outgoing i n x → accAt s'.outgoing i n y →
      x ≤ y := by
  have hInv := reachable_inv u s h
  exact ⟨hInv.2.1, fun s' i n x y hs hx hy =>
    step_accepted_mono u s s' hInv hs i n x y hx hy⟩

theorem c9_witness :
    AtMostOneAccepted (init_state 0) ∧
    ∀ s' i n x y, Step true (init_state 0) s' →
      accAt (init_state 0).outgoing i n x → accAt s'.outgoing i n y → x ≤ y :=
  c9_accepted_coalescing true (init_state 0) (Reachable.init 0)
